import Mathlib

/-!
Verification development for the pysqlite embedded database engine.

The definitions below are a shallow embedding of the Python sources
`src/pysqlite/core/execution_engine.py` and
`src/pysqlite/core/storage_engine.py`.  Python dictionaries are modelled as
insertion-ordered association lists, Python exceptions as `Except`/`Option`
results, and unbounded loops as fuel-indexed recursion (a `none` result means
the available fuel was exhausted, so a result of `none` for every fuel amount
proves the source loop does not terminate).  Python `int` and `float` values
are collapsed into a single exact numeric constructor: the two compare
numerically with each other in Python, and no property proved here observes
floating-point rounding.
-/

/-- Python runtime values stored in records and used as WHERE literals:
numbers (int and float collapsed), strings, and `None`. -/
inductive PyVal where
  | num (q : ℚ)
  | str (s : String)
  | null
deriving DecidableEq, Repr

/-- Python `==` on the modelled values: numbers compare numerically, strings
by content, `None == None` is true, and any cross-type comparison is `False`
(no exception is raised). -/
def pyEq : PyVal → PyVal → Bool
  | .num a, .num b => a == b
  | .str a, .str b => a == b
  | .null, .null => true
  | _, _ => false

/-- Python `<`: defined within numbers and within strings; any mixed-type
comparison (including any comparison against `None`) raises `TypeError`,
modelled as `none`. -/
def pyLt : PyVal → PyVal → Option Bool
  | .num a, .num b => some (decide (a < b))
  | .str a, .str b => some (decide (a < b))
  | _, _ => none

/-- Python `<=`, with the same `TypeError` behaviour as `pyLt`. -/
def pyLe : PyVal → PyVal → Option Bool
  | .num a, .num b => some (decide (a ≤ b))
  | .str a, .str b => some (decide (a ≤ b))
  | _, _ => none

/-- Python `>`, with the same `TypeError` behaviour as `pyLt`. -/
def pyGt : PyVal → PyVal → Option Bool
  | .num a, .num b => some (decide (b < a))
  | .str a, .str b => some (decide (b < a))
  | _, _ => none

/-- Python `>=`, with the same `TypeError` behaviour as `pyLt`. -/
def pyGe : PyVal → PyVal → Option Bool
  | .num a, .num b => some (decide (b ≤ a))
  | .str a, .str b => some (decide (b ≤ a))
  | _, _ => none

/-- Python truthiness of a value: `0`, the empty string and `None` are falsy. -/
def pyTruthy : PyVal → Bool
  | .num q => q != 0
  | .str s => s != ""
  | .null => false

/-- A record: a Python dict from column name to value, modelled as an
insertion-ordered association list. -/
abbrev PyRecord := List (String × PyVal)

/-- Python `d[k]` read (exact key only): the first binding for `k`. -/
def dictGet (record : PyRecord) (k : String) : Option PyVal :=
  (record.find? (fun kv => kv.1 == k)).map (fun kv => kv.2)

/-- Python `d[k] = v`: replace the binding in place if `k` is present,
otherwise append it. -/
def dictSet (record : PyRecord) (k : String) (v : PyVal) : PyRecord :=
  if record.any (fun kv => kv.1 == k) then
    record.map (fun kv => if kv.1 == k then (k, v) else kv)
  else record ++ [(k, v)]

/-- Column lookup used by `_evaluate_where_clause`: exact key first, then the
first key ending in `"." ++ column` (for join-qualified rows). -/
def recordLookup (record : PyRecord) (column : String) : Option PyVal :=
  match dictGet record column with
  | some v => some v
  | none =>
    (record.find? (fun kv => kv.1.endsWith ("." ++ column))).map (fun kv => kv.2)

/-- A WHERE clause, mirroring the parser's recursive dict shape:
`{type: condition, column, operator, value}`, `{type: AND, conditions}`,
`{type: OR, conditions}`. -/
inductive Clause where
  | condition (column : String) (oper : String) (value : PyVal)
  | AND (conds : List Clause)
  | OR (conds : List Clause)

/-- One leaf condition of `_evaluate_where_clause`: unknown operators yield
`False`; a missing column or a `None` record value yields `False`; the
comparison runs under `try/except TypeError`, so a `TypeError` (mixed-type
ordered comparison) also yields `False`. -/
def evalCondition (record : PyRecord) (column oper : String) (value : PyVal) : Bool :=
  if oper = "=" ∨ oper = "!=" ∨ oper = "<" ∨ oper = "<=" ∨ oper = ">" ∨ oper = ">=" then
    match recordLookup record column with
    | none => false
    | some .null => false
    | some v =>
      if oper = "=" then pyEq v value
      else if oper = "!=" then !pyEq v value
      else if oper = "<" then (pyLt v value).getD false
      else if oper = "<=" then (pyLe v value).getD false
      else if oper = ">" then (pyGt v value).getD false
      else (pyGe v value).getD false
  else false

mutual

/-- Embedding of `_evaluate_where_clause`: OR/AND short-circuit over child
clauses, a leaf runs `evalCondition`. -/
def evalWhere (record : PyRecord) : Clause → Bool
  | .condition column oper value => evalCondition record column oper value
  | .AND conds => evalWhereAll record conds
  | .OR conds => evalWhereAny record conds

/-- Python `any(...)` over child clauses. -/
def evalWhereAny (record : PyRecord) : List Clause → Bool
  | [] => false
  | c :: cs => evalWhere record c || evalWhereAny record cs

/-- Python `all(...)` over child clauses. -/
def evalWhereAll (record : PyRecord) : List Clause → Bool
  | [] => true
  | c :: cs => evalWhere record c && evalWhereAll record cs

end

/-- One SELECT item: `{type: wildcard}`, `{type: column, table, name}` or
`{type: aggregate, function, argument, alias}`. -/
inductive SelectPart where
  | wildcard
  | column (table : Option String) (name : String)
  | aggregate (func : String) (arg : String) (aliasName : String)
deriving DecidableEq, Repr

/-- The numeric values of column `arg` over `records`, as selected by
`_perform_aggregation`: `r.get(arg)` must be non-null and a number. -/
def aggNumValues (arg : String) (records : List PyRecord) : List ℚ :=
  records.filterMap (fun r =>
    match dictGet r arg with
    | some (.num q) => some q
    | _ => none)

/-- Number of records with a non-null value in column `arg`
(`sum(1 for r in records if r.get(arg) is not None)`). -/
def countNonNull (arg : String) (records : List PyRecord) : Nat :=
  records.countP (fun r =>
    match dictGet r arg with
    | some .null => false
    | some _ => true
    | none => false)

/-- The value `_perform_aggregation` assigns for one aggregate item, or `none`
when the loop body assigns nothing (an unknown function name over a non-empty
numeric value list falls through every `elif`). -/
def aggCell (func arg : String) (records : List PyRecord) : Option PyVal :=
  if func = "COUNT" then
    some (.num (if arg = "*" then (records.length : ℚ) else (countNonNull arg records : ℚ)))
  else
    match aggNumValues arg records with
    | [] => some .null
    | q :: qs =>
      if func = "SUM" then some (.num ((q :: qs).sum))
      else if func = "AVG" then some (.num ((q :: qs).sum / ((q :: qs).length : ℚ)))
      else if func = "MIN" then some (.num (qs.foldl min q))
      else if func = "MAX" then some (.num (qs.foldl max q))
      else none

/-- Possible Python exceptions surfaced by the embedded code. -/
inductive PyErr where
  | valueError (msg : String)
  | keyError (key : String)
  | attributeError (attr : String)
  | typeError
  | fileNotFoundError
  | indexError
  | pyException (msg : String)
deriving DecidableEq, Repr

/-- The main loop of `_perform_aggregation` over the full `select_parts`
list: a non-aggregate part hits `agg['function']` and raises `KeyError`. -/
def aggRowLoop (records : List PyRecord) : List SelectPart → PyRecord → Except PyErr PyRecord
  | [], row => .ok row
  | .aggregate func arg aliasName :: rest, row =>
    (match aggCell func arg records with
     | some v => aggRowLoop records rest (dictSet row aliasName v)
     | none => aggRowLoop records rest row)
  | _ :: _, _ => .error (.keyError "function")

/-- Python `any(agg['function'] != 'COUNT' for agg in aggregates)`, evaluated
left to right with short-circuit; a non-aggregate part raises `KeyError`. -/
def anyNonCount : List SelectPart → Except PyErr Bool
  | [] => .ok false
  | .aggregate func _ _ :: rest =>
    if func ≠ "COUNT" then .ok true else anyNonCount rest
  | _ :: _ => .error (.keyError "function")

/-- The dict comprehension `{agg['alias']: None for agg in aggregates}`. -/
def nullAggRow : List SelectPart → PyRecord → Except PyErr PyRecord
  | [], row => .ok row
  | .aggregate _ _ aliasName :: rest, row => nullAggRow rest (dictSet row aliasName .null)
  | _ :: _, _ => .error (.keyError "alias")

/-- Embedding of `_perform_aggregation(aggregates, records)`: when `records`
is empty and some aggregate is not COUNT, every alias (including COUNT ones)
is mapped to null; otherwise each aggregate is computed over `records`. -/
def performAggregation (parts : List SelectPart) (records : List PyRecord) :
    Except PyErr (List PyRecord) :=
  if records.isEmpty then
    match anyNonCount parts with
    | .error e => .error e
    | .ok true => (nullAggRow parts []).map (fun r => [r])
    | .ok false => (aggRowLoop records parts []).map (fun r => [r])
  else (aggRowLoop records parts []).map (fun r => [r])

/-! Association-list lemmas used to read results back out of fold-built rows. -/

theorem find?_cons_true {α : Type} (p : α → Bool) (a : α) (l : List α) (h : p a = true) :
    (a :: l).find? p = some a := by
  simp [List.find?, h]

theorem find?_cons_false {α : Type} (p : α → Bool) (a : α) (l : List α) (h : p a = false) :
    (a :: l).find? p = l.find? p := by
  simp [List.find?, h]

theorem find?_map_replace (k : String) (v : PyVal) :
    ∀ (r : PyRecord), r.any (fun kv => kv.1 == k) = true →
      (r.map (fun kv => if kv.1 == k then (k, v) else kv)).find? (fun kv => kv.1 == k) =
        some (k, v) := by
  intro r
  induction r with
  | nil => simp
  | cons a t ih =>
    intro h
    by_cases ha : (a.1 == k) = true
    · rw [List.map_cons, if_pos ha, find?_cons_true (fun kv => kv.1 == k) (k, v) _ (by simp)]
    · have haf : (a.1 == k) = false := by simp only [Bool.not_eq_true] at ha; exact ha
      rw [List.map_cons, if_neg (by simp [haf]), find?_cons_false (fun kv => kv.1 == k) a _ haf]
      apply ih
      simpa [haf] using h

theorem find?_append_self (k : String) (v : PyVal) :
    ∀ (r : PyRecord), r.any (fun kv => kv.1 == k) = false →
      (r ++ [(k, v)]).find? (fun kv => kv.1 == k) = some (k, v) := by
  intro r
  induction r with
  | nil => simp
  | cons a t ih =>
    intro h
    simp only [List.any_cons, Bool.or_eq_false_iff] at h
    rw [List.cons_append, find?_cons_false (fun kv => kv.1 == k) a _ h.1]
    exact ih h.2

theorem dictGet_dictSet_self (r : PyRecord) (k : String) (v : PyVal) :
    dictGet (dictSet r k v) k = some v := by
  unfold dictGet dictSet
  by_cases h : r.any (fun kv => kv.1 == k)
  · rw [if_pos h, find?_map_replace k v r h]
    rfl
  · have hf : r.any (fun kv => kv.1 == k) = false := by
      simp only [Bool.not_eq_true] at h; exact h
    rw [if_neg h, find?_append_self k v r hf]
    rfl

theorem find?_map_replace_ne (k k2 : String) (v : PyVal) (h : k2 ≠ k) :
    ∀ (r : PyRecord),
      (r.map (fun kv => if kv.1 == k then (k, v) else kv)).find? (fun kv => kv.1 == k2) =
        r.find? (fun kv => kv.1 == k2) := by
  intro r
  have hkk2 : (k == k2) = false := beq_eq_false_iff_ne.mpr (Ne.symm h)
  induction r with
  | nil => simp
  | cons a t ih =>
    by_cases ha : (a.1 == k) = true
    · have hak : a.1 = k := by simpa using ha
      have ha2 : (a.1 == k2) = false := by rw [hak]; exact hkk2
      rw [List.map_cons, if_pos ha,
        find?_cons_false (fun kv => kv.1 == k2) (k, v) _ (by exact hkk2),
        find?_cons_false (fun kv => kv.1 == k2) a _ ha2]
      exact ih
    · have haf : (a.1 == k) = false := by simp only [Bool.not_eq_true] at ha; exact ha
      rw [List.map_cons, if_neg (by simp [haf])]
      by_cases ha2 : (a.1 == k2) = true
      · rw [find?_cons_true (fun kv => kv.1 == k2) a _ ha2,
          find?_cons_true (fun kv => kv.1 == k2) a _ ha2]
      · have ha2f : (a.1 == k2) = false := by simp only [Bool.not_eq_true] at ha2; exact ha2
        rw [find?_cons_false (fun kv => kv.1 == k2) a _ ha2f,
          find?_cons_false (fun kv => kv.1 == k2) a _ ha2f]
        exact ih

theorem find?_append_ne (k k2 : String) (v : PyVal) (h : k2 ≠ k) :
    ∀ (r : PyRecord),
      (r ++ [(k, v)]).find? (fun kv => kv.1 == k2) = r.find? (fun kv => kv.1 == k2) := by
  intro r
  have hkk2 : (k == k2) = false := beq_eq_false_iff_ne.mpr (Ne.symm h)
  induction r with
  | nil => simp [List.find?, hkk2]
  | cons a t ih =>
    by_cases ha2 : (a.1 == k2) = true
    · rw [List.cons_append, find?_cons_true (fun kv => kv.1 == k2) a _ ha2,
        find?_cons_true (fun kv => kv.1 == k2) a _ ha2]
    · have ha2f : (a.1 == k2) = false := by simp only [Bool.not_eq_true] at ha2; exact ha2
      rw [List.cons_append, find?_cons_false (fun kv => kv.1 == k2) a _ ha2f,
        find?_cons_false (fun kv => kv.1 == k2) a _ ha2f]
      exact ih

theorem dictGet_dictSet_ne (r : PyRecord) (k k2 : String) (v : PyVal) (h : k2 ≠ k) :
    dictGet (dictSet r k v) k2 = dictGet r k2 := by
  unfold dictGet dictSet
  by_cases hany : r.any (fun kv => kv.1 == k)
  · rw [if_pos hany, find?_map_replace_ne k k2 v h r]
  · rw [if_neg hany, find?_append_ne k k2 v h r]

/-- Runtime type tag of a value, used to state type mismatch between a record
value and a WHERE literal. -/
def PyVal.tyTag : PyVal → Nat
  | .num _ => 0
  | .str _ => 1
  | .null => 2

/-- Claim C8 counterexample: for the record `{a: 1}` the condition
`a != 'x'` compares an int against a string; the claim says every
mismatched-type comparison yields false, but Python `!=` on mismatched types
yields True, which `_evaluate_where_clause` returns unchanged. -/
theorem c8_neq_mismatch_counterexample :
    evalWhere [("a", PyVal.num 1)] (Clause.condition "a" "!=" (PyVal.str "x")) = true := by
  decide

/-- Claim C8 (amended): for every record and leaf condition whose column
resolves to a non-null value of a different runtime type than the literal,
evaluation raises no error; the operators `=`, `<`, `<=`, `>`, `>=` yield
false, while `!=` yields true. -/
theorem c8_mismatch_yields_false_except_neq (record : PyRecord) (column : String)
    (v lit : PyVal) (hv : recordLookup record column = some v) (hnn : v ≠ PyVal.null)
    (hmm : v.tyTag ≠ lit.tyTag) :
    (∀ oper, oper ∈ (["=", "<", "<=", ">", ">="] : List String) →
        evalWhere record (Clause.condition column oper lit) = false) ∧
    evalWhere record (Clause.condition column "!=" lit) = true := by
  have main : ∀ oper, oper = "=" ∨ oper = "!=" ∨ oper = "<" ∨ oper = "<=" ∨
      oper = ">" ∨ oper = ">=" →
      evalCondition record column oper lit =
        (if oper = "!=" then true else false) := by
    intro oper hops
    have hcond : (oper = "=" ∨ oper = "!=" ∨ oper = "<" ∨ oper = "<=" ∨
        oper = ">" ∨ oper = ">=") := hops
    unfold evalCondition
    rw [if_pos hcond, hv]
    rcases v with q | s | _
    · rcases lit with q2 | s2 | _
      · simp [PyVal.tyTag] at hmm
      · rcases hops with rfl | rfl | rfl | rfl | rfl | rfl <;>
          simp [pyEq, pyLt, pyLe, pyGt, pyGe]
      · rcases hops with rfl | rfl | rfl | rfl | rfl | rfl <;>
          simp [pyEq, pyLt, pyLe, pyGt, pyGe]
    · rcases lit with q2 | s2 | _
      · rcases hops with rfl | rfl | rfl | rfl | rfl | rfl <;>
          simp [pyEq, pyLt, pyLe, pyGt, pyGe]
      · simp [PyVal.tyTag] at hmm
      · rcases hops with rfl | rfl | rfl | rfl | rfl | rfl <;>
          simp [pyEq, pyLt, pyLe, pyGt, pyGe]
    · exact absurd rfl hnn
  constructor
  · intro oper hin
    have hops : oper = "=" ∨ oper = "!=" ∨ oper = "<" ∨ oper = "<=" ∨
        oper = ">" ∨ oper = ">=" := by
      simp only [List.mem_cons, List.mem_singleton, List.not_mem_nil, or_false] at hin
      tauto
    have hne : oper ≠ "!=" := by
      simp only [List.mem_cons, List.mem_singleton, List.not_mem_nil, or_false] at hin
      rcases hin with rfl | rfl | rfl | rfl | rfl <;> decide
    show evalCondition record column oper lit = false
    rw [main oper hops, if_neg hne]
  · show evalCondition record column "!=" lit = true
    rw [main "!=" (by tauto), if_pos rfl]

/-- Witness for `c8_mismatch_yields_false_except_neq` at the record `{a: 1}`
and the string literal `'b'`. -/
theorem c8_mismatch_yields_false_except_neq_witness :
    recordLookup [("a", PyVal.num 1)] "a" = some (PyVal.num 1) ∧
    evalWhere [("a", PyVal.num 1)] (Clause.condition "a" "<" (PyVal.str "b")) = false ∧
    evalWhere [("a", PyVal.num 1)] (Clause.condition "a" "!=" (PyVal.str "b")) = true :=
  ⟨by decide,
   (c8_mismatch_yields_false_except_neq [("a", PyVal.num 1)] "a" (PyVal.num 1)
      (PyVal.str "b") (by decide) (by decide) (by decide)).1 "<" (by decide),
   (c8_mismatch_yields_false_except_neq [("a", PyVal.num 1)] "a" (PyVal.num 1)
      (PyVal.str "b") (by decide) (by decide) (by decide)).2⟩

/-- Aliases of the aggregate items of a SELECT list, in order. -/
def aggAliases (parts : List SelectPart) : List String :=
  parts.filterMap (fun p =>
    match p with
    | .aggregate _ _ al => some al
    | _ => none)

/-- Tests that a SELECT item is an aggregate over one of the five supported
functions. -/
def isAggFive : SelectPart → Bool
  | .aggregate func _ _ => decide (func ∈ (["COUNT", "SUM", "AVG", "MIN", "MAX"] : List String))
  | _ => false

/-- Whether some SELECT item is not a COUNT aggregate (the condition of the
early null-row return of `_perform_aggregation`, assuming all items are
aggregates). -/
def hasNonCount (parts : List SelectPart) : Bool :=
  parts.any (fun p =>
    match p with
    | .aggregate func _ _ => func != "COUNT"
    | _ => true)

theorem aggCell_some_of_five (func arg : String) (records : List PyRecord)
    (h : func ∈ (["COUNT", "SUM", "AVG", "MIN", "MAX"] : List String)) :
    ∃ v, aggCell func arg records = some v := by
  simp only [List.mem_cons, List.mem_singleton, List.not_mem_nil, or_false] at h
  rcases h with rfl | rfl | rfl | rfl | rfl <;>
    cases hvals : aggNumValues arg records <;> simp [aggCell, hvals]

theorem anyNonCount_eq_hasNonCount :
    ∀ (parts : List SelectPart), parts.all isAggFive = true →
      anyNonCount parts = .ok (hasNonCount parts) := by
  intro parts
  induction parts with
  | nil => intro _; rfl
  | cons p rest ih =>
    intro h
    simp only [List.all_cons, Bool.and_eq_true] at h
    cases p with
    | wildcard => simp [isAggFive] at h
    | column t n => simp [isAggFive] at h
    | aggregate func arg al =>
      by_cases hfc : func = "COUNT"
      · subst hfc
        rw [show anyNonCount (SelectPart.aggregate "COUNT" arg al :: rest) =
            anyNonCount rest from by simp [anyNonCount]]
        rw [ih h.2]
        simp [hasNonCount]
      · rw [show anyNonCount (SelectPart.aggregate func arg al :: rest) =
            .ok true from by simp [anyNonCount, hfc]]
        have : hasNonCount (SelectPart.aggregate func arg al :: rest) = true := by
          simp [hasNonCount, hfc]
        rw [this]

theorem hasNonCount_false_all_count (parts : List SelectPart)
    (h : hasNonCount parts = false) :
    ∀ func arg al, SelectPart.aggregate func arg al ∈ parts → func = "COUNT" := by
  intro func arg al hmem
  simp only [hasNonCount, List.any_eq_false] at h
  have := h _ hmem
  simpa using this

theorem nullAggRow_lookup :
    ∀ (parts : List SelectPart) (row0 : PyRecord), parts.all isAggFive = true →
      (aggAliases parts).Nodup →
      ∃ row, nullAggRow parts row0 = .ok row ∧
        (∀ func arg al, SelectPart.aggregate func arg al ∈ parts →
          dictGet row al = some PyVal.null) ∧
        (∀ k, k ∉ aggAliases parts → dictGet row k = dictGet row0 k) := by
  intro parts
  induction parts with
  | nil =>
    intro row0 _ _
    exact ⟨row0, rfl, by simp, fun k _ => rfl⟩
  | cons p rest ih =>
    intro row0 h hnd
    simp only [List.all_cons, Bool.and_eq_true] at h
    cases p with
    | wildcard => simp [isAggFive] at h
    | column t n => simp [isAggFive] at h
    | aggregate func arg al =>
      have hnd2 : (aggAliases rest).Nodup ∧ al ∉ aggAliases rest := by
        have : aggAliases (SelectPart.aggregate func arg al :: rest) =
            al :: aggAliases rest := by simp [aggAliases]
        rw [this] at hnd
        exact ⟨hnd.of_cons, (List.nodup_cons.mp hnd).1⟩
      obtain ⟨row, hrow, hlook, hother⟩ := ih (dictSet row0 al PyVal.null) h.2 hnd2.1
      refine ⟨row, ?_, ?_, ?_⟩
      · simpa [nullAggRow] using hrow
      · intro f2 a2 al2 hmem
        rcases List.mem_cons.mp hmem with heq | hm
        · cases heq
          rw [hother al hnd2.2, dictGet_dictSet_self]
        · exact hlook f2 a2 al2 hm
      · intro k hk
        have hcons : aggAliases (SelectPart.aggregate func arg al :: rest) =
            al :: aggAliases rest := by simp [aggAliases]
        rw [hcons] at hk
        have hk1 : k ≠ al := fun he => hk (by simp [he])
        have hk2 : k ∉ aggAliases rest := fun hm => hk (List.mem_cons_of_mem _ hm)
        rw [hother k hk2, dictGet_dictSet_ne _ _ _ _ hk1]

theorem aggRowLoop_lookup (records : List PyRecord) :
    ∀ (parts : List SelectPart) (row0 : PyRecord), parts.all isAggFive = true →
      (aggAliases parts).Nodup →
      ∃ row, aggRowLoop records parts row0 = .ok row ∧
        (∀ func arg al, SelectPart.aggregate func arg al ∈ parts →
          dictGet row al = aggCell func arg records) ∧
        (∀ k, k ∉ aggAliases parts → dictGet row k = dictGet row0 k) := by
  intro parts
  induction parts with
  | nil =>
    intro row0 _ _
    exact ⟨row0, rfl, by simp, fun k _ => rfl⟩
  | cons p rest ih =>
    intro row0 h hnd
    simp only [List.all_cons, Bool.and_eq_true] at h
    cases p with
    | wildcard => simp [isAggFive] at h
    | column t n => simp [isAggFive] at h
    | aggregate func arg al =>
      have hfive : func ∈ (["COUNT", "SUM", "AVG", "MIN", "MAX"] : List String) := by
        have := h.1
        simpa [isAggFive] using this
      obtain ⟨v, hv⟩ := aggCell_some_of_five func arg records hfive
      have hnd2 : (aggAliases rest).Nodup ∧ al ∉ aggAliases rest := by
        have : aggAliases (SelectPart.aggregate func arg al :: rest) =
            al :: aggAliases rest := by simp [aggAliases]
        rw [this] at hnd
        exact ⟨hnd.of_cons, (List.nodup_cons.mp hnd).1⟩
      obtain ⟨row, hrow, hlook, hother⟩ := ih (dictSet row0 al v) h.2 hnd2.1
      refine ⟨row, ?_, ?_, ?_⟩
      · simpa [aggRowLoop, hv] using hrow
      · intro f2 a2 al2 hmem
        rcases List.mem_cons.mp hmem with heq | hm
        · cases heq
          rw [hother al hnd2.2, dictGet_dictSet_self, hv]
        · exact hlook f2 a2 al2 hm
      · intro k hk
        have hcons : aggAliases (SelectPart.aggregate func arg al :: rest) =
            al :: aggAliases rest := by simp [aggAliases]
        rw [hcons] at hk
        have hk1 : k ≠ al := fun he => hk (by simp [he])
        have hk2 : k ∉ aggAliases rest := fun hm => hk (List.mem_cons_of_mem _ hm)
        rw [hother k hk2, dictGet_dictSet_ne _ _ _ _ hk1]

/-- Claim C7 counterexample: over the empty record set with the aggregates
`COUNT(*)` and `SUM(x)`, `_perform_aggregation` returns null for the
`COUNT(*)` alias; the claim says COUNT(*) always returns the group size,
which here is 0. -/
theorem c7_count_empty_group_counterexample :
    performAggregation
        [SelectPart.aggregate "COUNT" "*" "COUNT(*)",
         SelectPart.aggregate "SUM" "x" "SUM(x)"] [] =
      .ok [[("COUNT(*)", PyVal.null), ("SUM(x)", PyVal.null)]] ∧
    dictGet [("COUNT(*)", PyVal.null), ("SUM(x)", PyVal.null)] "COUNT(*)" ≠
      some (PyVal.num 0) :=
  ⟨rfl, by decide⟩

/-- Claim C7 (amended): for aggregate-only SELECT lists over the five
supported functions with distinct aliases, aggregation returns one row in
which COUNT(*) is the group size and COUNT(col) the non-null count of col,
except when the record set is empty and some non-COUNT aggregate is present,
in which case every aggregate (the COUNT ones included) yields null; a
SUM/AVG/MIN/MAX aggregate whose column has no non-null numeric value yields
null. -/
theorem c7_aggregation_semantics (parts : List SelectPart) (records : List PyRecord)
    (hfive : parts.all isAggFive = true)
    (hnodup : (aggAliases parts).Nodup) :
    ∃ row, performAggregation parts records = .ok [row] ∧
      ∀ func arg al, SelectPart.aggregate func arg al ∈ parts →
        (func = "COUNT" →
          dictGet row al =
            some (if records.isEmpty && hasNonCount parts then PyVal.null
              else PyVal.num (if arg = "*" then (records.length : ℚ)
                else (countNonNull arg records : ℚ)))) ∧
        (func ∈ (["SUM", "AVG", "MIN", "MAX"] : List String) →
          aggNumValues arg records = [] →
          dictGet row al = some PyVal.null) := by
  by_cases hrec : records.isEmpty
  · by_cases hnc : hasNonCount parts = true
    · obtain ⟨row, hrow, hlook, _⟩ := nullAggRow_lookup parts [] hfive hnodup
      refine ⟨row, ?_, ?_⟩
      · unfold performAggregation
        rw [if_pos hrec, anyNonCount_eq_hasNonCount parts hfive, hnc, hrow]
        rfl
      · intro func arg al hmem
        constructor
        · intro _
          rw [hlook func arg al hmem, hrec, hnc]
          rfl
        · intro _ _
          exact hlook func arg al hmem
    · have hncf : hasNonCount parts = false := by
        simp only [Bool.not_eq_true] at hnc; exact hnc
      obtain ⟨row, hrow, hlook, _⟩ := aggRowLoop_lookup records parts [] hfive hnodup
      refine ⟨row, ?_, ?_⟩
      · unfold performAggregation
        rw [if_pos hrec, anyNonCount_eq_hasNonCount parts hfive, hncf, hrow]
        rfl
      · intro func arg al hmem
        constructor
        · intro hc
          subst hc
          rw [hlook _ _ _ hmem, hncf]
          simp [aggCell]
        · intro hfn _
          have : func = "COUNT" := hasNonCount_false_all_count parts hncf func arg al hmem
          subst this
          simp only [List.mem_cons, List.mem_singleton, List.not_mem_nil, or_false] at hfn
          rcases hfn with h | h | h | h <;> exact absurd h (by decide)
  · have hrecf : records.isEmpty = false := by
      simp only [Bool.not_eq_true] at hrec; exact hrec
    obtain ⟨row, hrow, hlook, _⟩ := aggRowLoop_lookup records parts [] hfive hnodup
    refine ⟨row, ?_, ?_⟩
    · unfold performAggregation
      rw [if_neg (by simp [hrecf]), hrow]
      rfl
    · intro func arg al hmem
      constructor
      · intro hc
        subst hc
        rw [hlook _ _ _ hmem, hrecf]
        simp [aggCell]
      · intro hfn hvals
        rw [hlook _ _ _ hmem]
        have hfc : func ≠ "COUNT" := by
          simp only [List.mem_cons, List.mem_singleton, List.not_mem_nil, or_false] at hfn
          rcases hfn with h | h | h | h <;> subst h <;> decide
        unfold aggCell
        rw [if_neg hfc, hvals]

/-- Witness for `c7_aggregation_semantics` on a one-record group with a
COUNT and a SUM aggregate. -/
theorem c7_aggregation_semantics_witness :
    ([SelectPart.aggregate "COUNT" "x" "cnt",
      SelectPart.aggregate "SUM" "y" "sy"].all isAggFive = true) ∧
    (aggAliases [SelectPart.aggregate "COUNT" "x" "cnt",
      SelectPart.aggregate "SUM" "y" "sy"]).Nodup ∧
    (∃ row, performAggregation
        [SelectPart.aggregate "COUNT" "x" "cnt",
         SelectPart.aggregate "SUM" "y" "sy"]
        [[("x", PyVal.num 3), ("y", PyVal.str "a")]] = .ok [row] ∧
      ∀ func arg al, SelectPart.aggregate func arg al ∈
          [SelectPart.aggregate "COUNT" "x" "cnt",
           SelectPart.aggregate "SUM" "y" "sy"] →
        (func = "COUNT" →
          dictGet row al =
            some (if [[("x", PyVal.num 3), ("y", PyVal.str "a")]].isEmpty &&
                hasNonCount [SelectPart.aggregate "COUNT" "x" "cnt",
                  SelectPart.aggregate "SUM" "y" "sy"] then PyVal.null
              else PyVal.num (if arg = "*" then
                  (([[("x", PyVal.num 3), ("y", PyVal.str "a")]] : List PyRecord).length : ℚ)
                else (countNonNull arg [[("x", PyVal.num 3), ("y", PyVal.str "a")]] : ℚ)))) ∧
        (func ∈ (["SUM", "AVG", "MIN", "MAX"] : List String) →
          aggNumValues arg [[("x", PyVal.num 3), ("y", PyVal.str "a")]] = [] →
          dictGet row al = some PyVal.null)) :=
  ⟨by decide, by decide,
   c7_aggregation_semantics
     [SelectPart.aggregate "COUNT" "x" "cnt", SelectPart.aggregate "SUM" "y" "sy"]
     [[("x", PyVal.num 3), ("y", PyVal.str "a")]] (by decide) (by decide)⟩

/-! Embedding of `ExecutionEngine.execute` (execution_engine.py).  The
transaction-control branches and the implicit-transaction wrapper are
transcribed; the work done by `_dispatch_command` is abstracted as its
outcome (`Except`), and the calls the wrapper makes to the storage layer are
recorded as an action trace. -/

/-- Calls `execute` makes to the transaction layer and the dispatcher, in
order. -/
inductive EngineAction where
  | beginTx
  | dispatchCmd
  | commitTx
  | rollbackTx
deriving DecidableEq, Repr

/-- The command types `execute` treats as write operations. -/
def writeCommands : List String :=
  ["UPDATE", "DELETE", "CREATE_INDEX", "CREATE_TABLE", "INSERT"]

/-- Embedding of `ExecutionEngine.execute`: the returned triple is the list
of engine actions performed in order, the final `in_transaction` flag, and
the result (`none` stands for the status strings of BEGIN/COMMIT/ROLLBACK,
`some a` for a dispatched result `a`). -/
def executeCommand {α : Type} (commandType : String) (inTransaction : Bool)
    (dispatchResult : Except PyErr α) :
    List EngineAction × Bool × Except PyErr (Option α) :=
  if commandType = "BEGIN" then
    if inTransaction then ([], inTransaction, .error (.valueError "Transaction already in progress."))
    else ([.beginTx], true, .ok none)
  else if commandType = "COMMIT" then
    if inTransaction then ([.commitTx], false, .ok none)
    else ([], inTransaction, .error (.valueError "No transaction to commit."))
  else if commandType = "ROLLBACK" then
    if inTransaction then ([.rollbackTx], false, .ok none)
    else ([], inTransaction, .error (.valueError "No transaction to roll back."))
  else if commandType ∈ writeCommands ∧ ¬inTransaction then
    match dispatchResult with
    | .ok a => ([.beginTx, .dispatchCmd, .commitTx], false, .ok (some a))
    | .error e => ([.beginTx, .dispatchCmd, .rollbackTx], false, .error e)
  else ([.dispatchCmd], inTransaction, dispatchResult.map some)

/-- Claim C5: every write command run while no transaction is active is
wrapped as begin, dispatch, then commit on success or rollback with the
original error re-raised on failure; while a transaction is active the
command is dispatched with no extra begin or commit. -/
theorem c5_implicit_transaction_wrapping {α : Type} (commandType : String)
    (h : commandType ∈ writeCommands) (a : α) (e : PyErr) :
    executeCommand commandType false (Except.ok a) =
      ([.beginTx, .dispatchCmd, .commitTx], false, .ok (some a)) ∧
    executeCommand commandType false (Except.error e : Except PyErr α) =
      ([.beginTx, .dispatchCmd, .rollbackTx], false, .error e) ∧
    ∀ dispatchResult : Except PyErr α,
      executeCommand commandType true dispatchResult =
        ([.dispatchCmd], true, dispatchResult.map some) := by
  simp only [writeCommands, List.mem_cons, List.mem_singleton, List.not_mem_nil,
    or_false] at h
  rcases h with rfl | rfl | rfl | rfl | rfl <;>
    refine ⟨rfl, rfl, fun dispatchResult => ?_⟩ <;>
    cases dispatchResult <;> rfl

/-- Witness for `c5_implicit_transaction_wrapping` at an INSERT command. -/
theorem c5_implicit_transaction_wrapping_witness :
    ("INSERT" ∈ writeCommands) ∧
    executeCommand "INSERT" false (Except.ok (0 : Nat)) =
      ([.beginTx, .dispatchCmd, .commitTx], false, .ok (some 0)) ∧
    executeCommand "INSERT" false
        (Except.error (PyErr.valueError "boom") : Except PyErr Nat) =
      ([.beginTx, .dispatchCmd, .rollbackTx], false, .error (.valueError "boom")) ∧
    executeCommand "INSERT" true (Except.ok (0 : Nat)) =
      ([.dispatchCmd], true, .ok (some 0)) :=
  ⟨by decide,
   (c5_implicit_transaction_wrapping "INSERT" (by decide) (0 : Nat)
      (PyErr.valueError "boom")).1,
   (c5_implicit_transaction_wrapping "INSERT" (by decide) (0 : Nat)
      (PyErr.valueError "boom")).2.1,
   (c5_implicit_transaction_wrapping "INSERT" (by decide) (0 : Nat)
      (PyErr.valueError "boom")).2.2 (Except.ok 0)⟩

/-! Embedding of `_execute_create_index` (execution_engine.py).  The method
body forwards to `self.storage_engine.create_index(...)`; Python resolves
that name by attribute lookup on the `StorageEngine` class, so the embedding
carries the list of methods the class in storage_engine.py actually defines
and models a failed lookup as `AttributeError`. -/

/-- The methods defined on the `StorageEngine` class of
`src/pysqlite/core/storage_engine.py`, in source order. -/
def storageEngineMethods : List String :=
  ["__init__", "_get_table_path", "_get_index_path", "_get_journal_path",
   "_recover", "begin_transaction", "commit_transaction",
   "rollback_transaction", "_perform_rollback", "_write_page", "create_table",
   "insert_record", "_read_page", "get_table_metadata", "_btree_insert",
   "_insert_non_full", "_split_child", "_find_page_of_node", "update_record",
   "delete_record", "_btree_delete", "_delete_recursive", "search_pk",
   "search_index", "get_all_records", "_btree_get_all", "_btree_search",
   "_traverse_all"]

/-- A parsed CREATE_INDEX command:
`{type: CREATE_INDEX, index_name, table_name, column_name}`. -/
structure CreateIndexCmd where
  indexName : String
  tableName : String
  columnName : String
deriving DecidableEq, Repr

/-- Embedding of `_execute_create_index`: resolve `create_index` on the
storage engine, then call it; a missing attribute raises `AttributeError`
before any storage operation runs. -/
def executeCreateIndex (cmd : CreateIndexCmd) : Except PyErr String :=
  if storageEngineMethods.contains "create_index" then
    .ok ("Index '" ++ cmd.indexName ++ "' created on table '" ++ cmd.tableName ++ "'.")
  else .error (.attributeError "create_index")

/-- Claim C2: the `StorageEngine` class defines no `create_index` method, so
`_execute_create_index` raises `AttributeError` for every input instead of
performing the index-creation steps the specification describes. -/
theorem c2_create_index_always_fails (cmd : CreateIndexCmd) :
    executeCreateIndex cmd = .error (.attributeError "create_index") := rfl

/-! Embedding of the journal and transaction layer of storage_engine.py.
Data files are sequences of fixed-size pages; a page's byte block is
abstracted as one code (a `Nat`), with 0 the all-zero page that reading an
unwritten offset yields.  The file system maps paths to page files and, for
each data file that has one, to its `-journal` undo log (keyed here by the
data-file path). -/

/-- Generic Python-dict read, first binding wins. -/
def lookupA {κ β : Type} [BEq κ] (l : List (κ × β)) (k : κ) : Option β :=
  (l.find? (fun kv => kv.1 == k)).map (fun kv => kv.2)

/-- Generic Python-dict write: replace in place or append. -/
def setA {κ β : Type} [BEq κ] (l : List (κ × β)) (k : κ) (v : β) : List (κ × β) :=
  if l.any (fun kv => kv.1 == k) then
    l.map (fun kv => if kv.1 == k then (k, v) else kv)
  else l ++ [(k, v)]

/-- Generic dict/file deletion. -/
def removeA {κ β : Type} [BEq κ] (l : List (κ × β)) (k : κ) : List (κ × β) :=
  l.filter (fun kv => !(kv.1 == k))

theorem lookupA_setA_self {κ β : Type} [BEq κ] [LawfulBEq κ]
    (l : List (κ × β)) (k : κ) (v : β) : lookupA (setA l k v) k = some v := by
  unfold lookupA setA
  by_cases h : l.any (fun kv => kv.1 == k)
  · rw [if_pos h]
    have : ∀ (r : List (κ × β)), r.any (fun kv => kv.1 == k) = true →
        (r.map (fun kv => if kv.1 == k then (k, v) else kv)).find? (fun kv => kv.1 == k) =
          some (k, v) := by
      intro r
      induction r with
      | nil => simp
      | cons a t ih =>
        intro hh
        by_cases ha : (a.1 == k) = true
        · rw [List.map_cons, if_pos ha, find?_cons_true (fun kv => kv.1 == k) (k, v) _ (by simp)]
        · have haf : (a.1 == k) = false := by simp only [Bool.not_eq_true] at ha; exact ha
          rw [List.map_cons, if_neg (by simp [haf]),
            find?_cons_false (fun kv => kv.1 == k) a _ haf]
          apply ih
          simpa [haf] using hh
    rw [this l h]
    rfl
  · rw [if_neg h]
    have hf : l.any (fun kv => kv.1 == k) = false := by
      simp only [Bool.not_eq_true] at h; exact h
    have : ∀ (r : List (κ × β)), r.any (fun kv => kv.1 == k) = false →
        (r ++ [(k, v)]).find? (fun kv => kv.1 == k) = some (k, v) := by
      intro r
      induction r with
      | nil => simp
      | cons a t ih =>
        intro hh
        simp only [List.any_cons, Bool.or_eq_false_iff] at hh
        rw [List.cons_append, find?_cons_false (fun kv => kv.1 == k) a _ hh.1]
        exact ih hh.2
    rw [this l hf]
    rfl

theorem lookupA_setA_ne {κ β : Type} [BEq κ] [LawfulBEq κ]
    (l : List (κ × β)) (k k2 : κ) (v : β) (h : k2 ≠ k) :
    lookupA (setA l k v) k2 = lookupA l k2 := by
  unfold lookupA setA
  have hkk2 : (k == k2) = false := beq_eq_false_iff_ne.mpr (Ne.symm h)
  by_cases hany : l.any (fun kv => kv.1 == k)
  · rw [if_pos hany]
    clear hany
    congr 1
    induction l with
    | nil => simp
    | cons a t ih =>
      by_cases ha : (a.1 == k) = true
      · have hak : a.1 = k := by simpa using ha
        have ha2 : (a.1 == k2) = false := by rw [hak]; exact hkk2
        rw [List.map_cons, if_pos ha,
          find?_cons_false (fun kv => kv.1 == k2) (k, v) _ (by exact hkk2),
          find?_cons_false (fun kv => kv.1 == k2) a _ ha2]
        exact ih
      · have haf : (a.1 == k) = false := by simp only [Bool.not_eq_true] at ha; exact ha
        rw [List.map_cons, if_neg (by simp [haf])]
        by_cases ha2 : (a.1 == k2) = true
        · rw [find?_cons_true (fun kv => kv.1 == k2) a _ ha2,
            find?_cons_true (fun kv => kv.1 == k2) a _ ha2]
        · have ha2f : (a.1 == k2) = false := by simp only [Bool.not_eq_true] at ha2; exact ha2
          rw [find?_cons_false (fun kv => kv.1 == k2) a _ ha2f,
            find?_cons_false (fun kv => kv.1 == k2) a _ ha2f]
          exact ih
  · rw [if_neg hany]
    clear hany
    congr 1
    induction l with
    | nil => simp [List.find?, hkk2]
    | cons a t ih =>
      by_cases ha2 : (a.1 == k2) = true
      · rw [List.cons_append, find?_cons_true (fun kv => kv.1 == k2) a _ ha2,
          find?_cons_true (fun kv => kv.1 == k2) a _ ha2]
      · have ha2f : (a.1 == k2) = false := by simp only [Bool.not_eq_true] at ha2; exact ha2
        rw [List.cons_append, find?_cons_false (fun kv => kv.1 == k2) a _ ha2f,
          find?_cons_false (fun kv => kv.1 == k2) a _ ha2f]
        exact ih

theorem lookupA_removeA_self {κ β : Type} [BEq κ] [LawfulBEq κ]
    (l : List (κ × β)) (k : κ) : lookupA (removeA l k) k = none := by
  unfold lookupA removeA
  have : ((l.filter (fun kv => !(kv.1 == k))).find? (fun kv => kv.1 == k)) = none := by
    rw [List.find?_eq_none]
    intro x hx
    have := (List.mem_filter.mp hx).2
    simp only [Bool.not_eq_true'] at this
    simp [this]
  rw [this]
  rfl

theorem lookupA_removeA_ne {κ β : Type} [BEq κ] [LawfulBEq κ]
    (l : List (κ × β)) (k k2 : κ) (h : k2 ≠ k) :
    lookupA (removeA l k) k2 = lookupA l k2 := by
  unfold lookupA removeA
  congr 1
  induction l with
  | nil => simp
  | cons a t ih =>
    by_cases ha : (a.1 == k) = true
    · have hak : a.1 = k := by simpa using ha
      have ha2 : (a.1 == k2) = false := by
        rw [hak]; exact beq_eq_false_iff_ne.mpr (Ne.symm h)
      rw [List.filter_cons_of_neg (by simp [ha]),
        find?_cons_false (fun kv => kv.1 == k2) a _ ha2]
      exact ih
    · have haf : (a.1 == k) = false := by simp only [Bool.not_eq_true] at ha; exact ha
      rw [List.filter_cons_of_pos (by simp [haf])]
      by_cases ha2 : (a.1 == k2) = true
      · rw [find?_cons_true (fun kv => kv.1 == k2) a _ ha2,
          find?_cons_true (fun kv => kv.1 == k2) a _ ha2]
      · have ha2f : (a.1 == k2) = false := by simp only [Bool.not_eq_true] at ha2; exact ha2
        rw [find?_cons_false (fun kv => kv.1 == k2) a _ ha2f,
          find?_cons_false (fun kv => kv.1 == k2) a _ ha2f]
        exact ih

theorem mem_keys_of_lookupA_some {κ β : Type} [BEq κ] [LawfulBEq κ]
    {l : List (κ × β)} {k : κ} {v : β} (h : lookupA l k = some v) :
    k ∈ l.map (fun kv => kv.1) := by
  unfold lookupA at h
  cases hf : l.find? (fun kv => kv.1 == k) with
  | none => rw [hf] at h; exact absurd h (by simp)
  | some a =>
    have hm := List.mem_of_find?_eq_some hf
    have hp := List.find?_some hf
    have : a.1 = k := by simpa using hp
    exact this ▸ List.mem_map_of_mem (fun kv => kv.1) hm

/-- A data file: page number to page content (one code per `PAGE_SIZE`
block); an unlisted page reads as the all-zero block, code 0. -/
abbrev PageFile := List (Nat × Nat)

/-- A journal file: the parsed `(page number, pre-image)` entries in append
order. -/
abbrev JournalEntries := List (Nat × Nat)

/-- The database directory: existing data files and existing journal files
(a journal is keyed by its data file's path; on disk it is that path with
`-journal` appended, a bijective renaming). -/
structure FileSys where
  dataFiles : List (String × PageFile)
  journalFiles : List (String × JournalEntries)
deriving DecidableEq, Repr

/-- Process state of the storage engine: the directory, the
`transaction_active` flag, and the `journaled_pages` dict from data-file path
to the set (kept in first-touch order) of journaled page numbers. -/
structure TxEngine where
  fs : FileSys
  transactionActive : Bool
  journaledPages : List (String × List Nat)
deriving DecidableEq, Repr

/-- Content of one page of a page file (zero-filled when unwritten). -/
def readPageB (pages : PageFile) (p : Nat) : Nat :=
  (lookupA pages p).getD 0

/-- The journaling half of `_write_page`: inside a transaction, before the
first mutation of `(path, pageNum)`, append the pre-image to the journal and
record the page as journaled. -/
def journalStep (e : TxEngine) (path : String) (pageNum : Nat) (pages : PageFile) : TxEngine :=
  if e.transactionActive then
    let pset := (lookupA e.journaledPages path).getD []
    if pageNum ∈ pset then e
    else
      { e with
        fs := { e.fs with
          journalFiles := setA e.fs.journalFiles path
            (((lookupA e.fs.journalFiles path).getD []) ++ [(pageNum, readPageB pages pageNum)]) },
        journaledPages := setA e.journaledPages path (pset ++ [pageNum]) }
  else e

/-- Embedding of `_write_page`: journal the pre-image if needed, then write
the page; opening a missing data file raises (`none`). -/
def writePage (e : TxEngine) (path : String) (pageNum content : Nat) : Option TxEngine :=
  match lookupA e.fs.dataFiles path with
  | none => none
  | some pages =>
    let e1 := journalStep e path pageNum pages
    match lookupA e1.fs.dataFiles path with
    | none => none
    | some pages1 =>
      some { e1 with fs := { e1.fs with
        dataFiles := setA e1.fs.dataFiles path (setA pages1 pageNum content) } }

/-- Replay of a journal onto a page file, first entry first (the loop body of
`_perform_rollback`). -/
def replayJournal (entries : JournalEntries) (pages : PageFile) : PageFile :=
  entries.foldl (fun acc en => setA acc en.1 en.2) pages

/-- Embedding of `_perform_rollback(db_path, journal_path)`: a missing
journal is an early no-op return; otherwise the journal is replayed into the
data file and the `finally` block deletes the journal whether the replay
succeeded or raised (a missing data file raises `FileNotFoundError`). -/
def performRollback (fs : FileSys) (path : String) : Option PyErr × FileSys :=
  match lookupA fs.journalFiles path with
  | none => (none, fs)
  | some entries =>
    match lookupA fs.dataFiles path with
    | none => (some .fileNotFoundError, { fs with journalFiles := removeA fs.journalFiles path })
    | some pages =>
      (none, { dataFiles := setA fs.dataFiles path (replayJournal entries pages),
               journalFiles := removeA fs.journalFiles path })

/-- The loop of `rollback_transaction` over the keys of `journaled_pages`; a
raised exception propagates (aborting the remaining files). -/
def rollbackAll (fs : FileSys) : List String → Except PyErr FileSys
  | [] => .ok fs
  | k :: ks =>
    match performRollback fs k with
    | (some err, _) => .error err
    | (none, fs1) => rollbackAll fs1 ks

/-- Embedding of `rollback_transaction`: a silent no-op when no transaction
is active; otherwise replay and delete every journal of the transaction,
clear the flag and the journaled-pages map. -/
def rollbackTransaction (e : TxEngine) : Except PyErr TxEngine :=
  if ¬e.transactionActive then .ok e
  else
    match rollbackAll e.fs (e.journaledPages.map (fun kv => kv.1)) with
    | .error err => .error err
    | .ok fs1 => .ok { fs := fs1, transactionActive := false, journaledPages := [] }

/-- Embedding of `commit_transaction`: a silent no-op when no transaction is
active; otherwise delete the journal of every file in `journaled_pages`,
clear the flag and the map. -/
def commitTransaction (e : TxEngine) : TxEngine :=
  if ¬e.transactionActive then e
  else
    { fs := { e.fs with
        journalFiles := e.journaledPages.foldl (fun js kv => removeA js kv.1) e.fs.journalFiles },
      transactionActive := false,
      journaledPages := [] }

/-- A transaction body: the page writes issued between begin and rollback. -/
def applyWrites (e : TxEngine) : List (String × Nat × Nat) → Option TxEngine
  | [] => some e
  | (f, p, c) :: ws =>
    match writePage e f p c with
    | some e1 => applyWrites e1 ws
    | none => none

/-- Observable content of page `p` of data file `path` (`none` when the file
does not exist). -/
def pageContent (fs : FileSys) (path : String) (p : Nat) : Option Nat :=
  (lookupA fs.dataFiles path).map (fun pages => readPageB pages p)

/-- The value the journal replay leaves on page `q`, when any: the last
journal entry for `q` wins. -/
def replayVal (entries : JournalEntries) (q : Nat) : Option Nat :=
  (entries.reverse.find? (fun en => en.1 == q)).map (fun en => en.2)

theorem readPageB_setA (m : PageFile) (a b q : Nat) :
    readPageB (setA m a b) q = if q = a then b else readPageB m q := by
  by_cases h : q = a
  · subst h
    rw [if_pos rfl]
    unfold readPageB
    rw [lookupA_setA_self]
    rfl
  · rw [if_neg h]
    unfold readPageB
    rw [lookupA_setA_ne m a q b h]

theorem find?_append_single {α : Type} (p : α → Bool) (xs : List α) (a : α) :
    (xs ++ [a]).find? p =
      match xs.find? p with
      | some r => some r
      | none => if p a then some a else none := by
  induction xs with
  | nil => cases hpa : p a <;> simp [List.find?, hpa]
  | cons x t ih =>
    cases hx : p x with
    | false =>
      rw [List.cons_append, find?_cons_false _ _ _ hx, find?_cons_false _ _ _ hx, ih]
    | true =>
      rw [List.cons_append, find?_cons_true _ _ _ hx, find?_cons_true _ _ _ hx]

theorem readPageB_replay :
    ∀ (entries : JournalEntries) (m : PageFile) (q : Nat),
      readPageB (replayJournal entries m) q = (replayVal entries q).getD (readPageB m q) := by
  intro entries
  induction entries with
  | nil => intro m q; rfl
  | cons en rest ih =>
    intro m q
    show readPageB (replayJournal rest (setA m en.1 en.2)) q = _
    rw [ih (setA m en.1 en.2) q, readPageB_setA]
    have hrev : (en :: rest).reverse = rest.reverse ++ [en] := by simp
    unfold replayVal
    rw [hrev, find?_append_single]
    cases hr : rest.reverse.find? (fun e2 => e2.1 == q) with
    | some a => rfl
    | none =>
      by_cases he : q = en.1
      · subst he
        simp
      · simp [beq_eq_false_iff_ne.mpr (Ne.symm he), he]

theorem replayVal_append_single (entries : JournalEntries) (p v q : Nat) :
    replayVal (entries ++ [(p, v)]) q = if q = p then some v else replayVal entries q := by
  unfold replayVal
  have hrev : (entries ++ [(p, v)]).reverse = (p, v) :: entries.reverse := by simp
  rw [hrev]
  by_cases h : q = p
  · subst h
    rw [find?_cons_true (fun en => en.1 == q) (q, v) _ (by simp), if_pos rfl]
    rfl
  · rw [find?_cons_false (fun en => en.1 == q) (p, v) _
      (beq_eq_false_iff_ne.mpr (Ne.symm h)), if_neg h]

theorem replayVal_eq_none_of_not_mem (entries : JournalEntries) (p : Nat)
    (h : p ∉ entries.map (fun en => en.1)) : replayVal entries p = none := by
  unfold replayVal
  rw [List.find?_eq_none.mpr]
  · rfl
  · intro x hx
    have : x.1 ∈ entries.map (fun en => en.1) :=
      List.mem_map_of_mem _ (List.mem_reverse.mp hx)
    intro hbeq
    exact h ((by simpa using hbeq : x.1 = p) ▸ this)

theorem replayVal_isSome_of_mem (entries : JournalEntries) (p : Nat)
    (h : p ∈ entries.map (fun en => en.1)) : ∃ v, replayVal entries p = some v := by
  unfold replayVal
  obtain ⟨en, hen, hfst⟩ := List.mem_map.mp h
  have hrev : en ∈ entries.reverse := List.mem_reverse.mpr hen
  have : ∃ x, x ∈ entries.reverse ∧ (fun e2 => e2.1 == p) x = true :=
    ⟨en, hrev, by simp [hfst]⟩
  cases hf : entries.reverse.find? (fun e2 => e2.1 == p) with
  | none =>
    rw [List.find?_eq_none] at hf
    obtain ⟨x, hx, hpx⟩ := this
    exact absurd hpx (by simpa using hf x hx)
  | some a => exact ⟨a.2, rfl⟩

theorem journalStep_dataFiles (e : TxEngine) (path : String) (p : Nat) (pages : PageFile) :
    (journalStep e path p pages).fs.dataFiles = e.fs.dataFiles := by
  unfold journalStep
  split
  · dsimp only
    split <;> rfl
  · rfl

/-- Invariant maintained along a transaction's writes: the engine stays
active; files never journaled are untouched and have no journal; every
journaled file has a journal whose entries cover exactly the journaled pages
and whose replay over the current file restores the pre-transaction
content. -/
def TxInv (e0 e : TxEngine) : Prop :=
  e.transactionActive = true ∧
  (∀ f, lookupA e.journaledPages f = none →
      lookupA e.fs.journalFiles f = none ∧
      lookupA e.fs.dataFiles f = lookupA e0.fs.dataFiles f) ∧
  (∀ f ps, lookupA e.journaledPages f = some ps →
      ∃ entries pages pages0,
        lookupA e.fs.journalFiles f = some entries ∧
        lookupA e.fs.dataFiles f = some pages ∧
        lookupA e0.fs.dataFiles f = some pages0 ∧
        entries.map (fun en => en.1) = ps ∧
        ∀ q, (replayVal entries q).getD (readPageB pages q) = readPageB pages0 q)

theorem txInv_init (e0 : TxEngine) (hact : e0.transactionActive = true)
    (hjp : e0.journaledPages = []) (hjf : e0.fs.journalFiles = []) : TxInv e0 e0 := by
  refine ⟨hact, ?_, ?_⟩
  · intro f _
    constructor
    · rw [hjf]; rfl
    · rfl
  · intro f ps hf
    rw [hjp] at hf
    exact absurd hf (by simp [lookupA])

theorem journalStep_mem_eq (e : TxEngine) (path : String) (p : Nat) (pages : PageFile)
    (hact : e.transactionActive = true)
    (hmem : p ∈ (lookupA e.journaledPages path).getD []) :
    journalStep e path p pages = e := by
  unfold journalStep
  rw [if_pos hact]
  dsimp only
  rw [if_pos hmem]

theorem journalStep_fresh_eq (e : TxEngine) (path : String) (p : Nat) (pages : PageFile)
    (hact : e.transactionActive = true)
    (hmem : p ∉ (lookupA e.journaledPages path).getD []) :
    journalStep e path p pages =
      { e with
        fs := { e.fs with
          journalFiles := setA e.fs.journalFiles path
              (((lookupA e.fs.journalFiles path).getD []) ++ [(p, readPageB pages p)]) },
        journaledPages := setA e.journaledPages path
            (((lookupA e.journaledPages path).getD []) ++ [p]) } := by
  unfold journalStep
  rw [if_pos hact]
  dsimp only
  rw [if_neg hmem]

theorem writePage_eq_of_some (e : TxEngine) (path : String) (p c : Nat) (pages : PageFile)
    (hd : lookupA e.fs.dataFiles path = some pages) :
    writePage e path p c =
      some { fs := { dataFiles := setA e.fs.dataFiles path (setA pages p c),
                     journalFiles := (journalStep e path p pages).fs.journalFiles },
             transactionActive := (journalStep e path p pages).transactionActive,
             journaledPages := (journalStep e path p pages).journaledPages } := by
  unfold writePage
  rw [hd]
  dsimp only
  rw [journalStep_dataFiles, hd]

theorem writePage_inv (e0 e e' : TxEngine) (path : String) (p c : Nat)
    (hinv : TxInv e0 e) (hw : writePage e path p c = some e') : TxInv e0 e' := by
  obtain ⟨hact, hnone, hsome⟩ := hinv
  cases hd : lookupA e.fs.dataFiles path with
  | none =>
    unfold writePage at hw
    rw [hd] at hw
    exact absurd hw (by simp)
  | some pages =>
    rw [writePage_eq_of_some e path p c pages hd] at hw
    have he' := (Option.some.inj hw).symm
    clear hw
    by_cases hmem : p ∈ (lookupA e.journaledPages path).getD []
    · -- the page is already journaled: only the data page changes
      rw [journalStep_mem_eq e path p pages hact hmem] at he'
      cases hjp : lookupA e.journaledPages path with
      | none => rw [hjp] at hmem; exact absurd hmem (by simp)
      | some ps =>
        subst he'
        refine ⟨hact, ?_, ?_⟩
        · intro g hg
          have hgp : g ≠ path := by
            intro hh
            rw [hh, hjp] at hg
            cases hg
          obtain ⟨hj, hdata⟩ := hnone g hg
          exact ⟨hj, by rw [lookupA_setA_ne _ _ _ _ hgp]; exact hdata⟩
        · intro g ps' hg
          by_cases hgp : g = path
          · subst hgp
            rw [hjp] at hg
            cases hg
            obtain ⟨entries, pages2, pages0, hje, hde, he0, hmap, hrep⟩ := hsome g ps hjp
            have hpag : pages2 = pages := by
              have hd2 := hd
              rw [hde] at hd2
              exact Option.some.inj hd2
            rw [hpag] at hrep hde
            refine ⟨entries, setA pages p c, pages0, hje, ?_, he0, hmap, ?_⟩
            · exact lookupA_setA_self _ _ _
            · intro q
              by_cases hq : q = p
              · subst hq
                have hqm : q ∈ entries.map (fun en => en.1) := by
                  rw [hmap]
                  rw [hjp] at hmem
                  exact hmem
                obtain ⟨v, hv⟩ := replayVal_isSome_of_mem entries q hqm
                have := hrep q
                rw [hv] at this ⊢
                exact this
              · rw [readPageB_setA, if_neg hq]
                exact hrep q
          · rw [lookupA_setA_ne _ _ _ _ hgp]
            obtain ⟨entries, pages2, pages0, hje, hde, he0, hmap, hrep⟩ := hsome g ps' hg
            exact ⟨entries, pages2, pages0, hje, hde, he0, hmap, hrep⟩
    · -- first touch of the page: journal the pre-image, then write
      rw [journalStep_fresh_eq e path p pages hact hmem] at he'
      subst he'
      refine ⟨hact, ?_, ?_⟩
      · intro g hg
        dsimp only at hg ⊢
        have hgp : g ≠ path := by
          intro hh
          rw [hh, lookupA_setA_self] at hg
          cases hg
        rw [lookupA_setA_ne _ _ _ _ hgp] at hg
        obtain ⟨hj, hdata⟩ := hnone g hg
        constructor
        · rw [lookupA_setA_ne _ _ _ _ hgp]
          exact hj
        · rw [lookupA_setA_ne _ _ _ _ hgp]
          exact hdata
      · intro g ps' hg
        dsimp only at hg ⊢
        by_cases hgp : g = path
        · subst hgp
          rw [lookupA_setA_self] at hg
          cases hg
          cases hjp : lookupA e.journaledPages g with
          | none =>
            obtain ⟨hjnone, hdeq⟩ := hnone g hjp
            have he0 : lookupA e0.fs.dataFiles g = some pages := by
              rw [← hdeq]
              exact hd
            refine ⟨(lookupA e.fs.journalFiles g).getD [] ++ [(p, readPageB pages p)],
              setA pages p c, pages, ?_, ?_, he0, ?_, ?_⟩
            · exact lookupA_setA_self _ _ _
            · exact lookupA_setA_self _ _ _
            · simp [hjnone]
            · intro q
              rw [replayVal_append_single]
              by_cases hq : q = p
              · subst hq
                rw [if_pos rfl]
                rfl
              · rw [if_neg hq, readPageB_setA, if_neg hq, hjnone]
                rfl
          | some ps =>
            rw [hjp] at hmem
            obtain ⟨entries, pages2, pages0, hje, hde, he0, hmap, hrep⟩ := hsome g ps hjp
            have hpag : pages2 = pages := by
              have hd2 := hd
              rw [hde] at hd2
              exact Option.some.inj hd2
            rw [hpag] at hrep hde
            refine ⟨(lookupA e.fs.journalFiles g).getD [] ++ [(p, readPageB pages p)],
              setA pages p c, pages0, ?_, ?_, he0, ?_, ?_⟩
            · exact lookupA_setA_self _ _ _
            · exact lookupA_setA_self _ _ _
            · simp [hje, hmap]
            · intro q
              rw [replayVal_append_single]
              by_cases hq : q = p
              · subst hq
                rw [if_pos rfl]
                have hnm : q ∉ entries.map (fun en => en.1) := by
                  rw [hmap]
                  exact hmem
                have := hrep q
                rw [replayVal_eq_none_of_not_mem entries q hnm] at this
                exact this
              · rw [if_neg hq, readPageB_setA, if_neg hq, hje]
                exact hrep q
        · rw [lookupA_setA_ne _ _ _ _ hgp] at hg
          obtain ⟨entries, pages2, pages0, hje, hde, he0, hmap, hrep⟩ := hsome g ps' hg
          refine ⟨entries, pages2, pages0, ?_, ?_, he0, hmap, hrep⟩
          · rw [lookupA_setA_ne _ _ _ _ hgp]
            exact hje
          · rw [lookupA_setA_ne _ _ _ _ hgp]
            exact hde

theorem applyWrites_inv (e0 : TxEngine) :
    ∀ (ws : List (String × Nat × Nat)) (e e' : TxEngine),
      TxInv e0 e → applyWrites e ws = some e' → TxInv e0 e' := by
  intro ws
  induction ws with
  | nil =>
    intro e e' hinv hw
    cases hw
    exact hinv
  | cons w rest ih =>
    intro e e' hinv hw
    obtain ⟨f, p, c⟩ := w
    unfold applyWrites at hw
    cases hww : writePage e f p c with
    | none => rw [hww] at hw; cases hw
    | some e1 =>
      rw [hww] at hw
      exact ih e1 e' (writePage_inv e0 e e1 f p c hinv hww) hw

theorem performRollback_none (fs : FileSys) (f : String)
    (h : lookupA fs.journalFiles f = none) : performRollback fs f = (none, fs) := by
  unfold performRollback
  rw [h]

theorem performRollback_some (fs : FileSys) (f : String) (entries : JournalEntries)
    (pages : PageFile) (hj : lookupA fs.journalFiles f = some entries)
    (hdta : lookupA fs.dataFiles f = some pages) :
    performRollback fs f =
      (none, { dataFiles := setA fs.dataFiles f (replayJournal entries pages),
               journalFiles := removeA fs.journalFiles f }) := by
  unfold performRollback
  rw [hj, hdta]

/-- Invariant carried through the rollback loop: files without a journal are
already at their pre-transaction content; every remaining journal belongs to
a file still in the worklist and its replay restores that file. -/
def RollInv (e0 : TxEngine) (fs : FileSys) (rem : List String) : Prop :=
  (∀ f, lookupA fs.journalFiles f = none →
      ∀ p, pageContent fs f p = pageContent e0.fs f p) ∧
  (∀ f entries, lookupA fs.journalFiles f = some entries →
      f ∈ rem ∧
      ∃ pages pages0,
        lookupA fs.dataFiles f = some pages ∧
        lookupA e0.fs.dataFiles f = some pages0 ∧
        ∀ q, (replayVal entries q).getD (readPageB pages q) = readPageB pages0 q)

theorem rollInv_of_txInv (e0 e : TxEngine) (hinv : TxInv e0 e) :
    RollInv e0 e.fs (e.journaledPages.map (fun kv => kv.1)) := by
  obtain ⟨hact, hnone, hsome⟩ := hinv
  constructor
  · intro f hjf p
    cases hjp : lookupA e.journaledPages f with
    | none =>
      obtain ⟨_, hdata⟩ := hnone f hjp
      unfold pageContent
      rw [hdata]
    | some ps =>
      obtain ⟨entries, pages, pages0, hje, _, _, _, _⟩ := hsome f ps hjp
      rw [hje] at hjf
      cases hjf
  · intro f entries hjf
    cases hjp : lookupA e.journaledPages f with
    | none =>
      obtain ⟨hj, _⟩ := hnone f hjp
      rw [hj] at hjf
      cases hjf
    | some ps =>
      obtain ⟨entries2, pages, pages0, hje, hde, he0, _, hrep⟩ := hsome f ps hjp
      have hent : entries2 = entries := by
        rw [hje] at hjf
        exact Option.some.inj hjf
      rw [hent] at hrep
      exact ⟨mem_keys_of_lookupA_some hjp, pages, pages0, hde, he0, hrep⟩

theorem rollbackAll_restores (e0 : TxEngine) :
    ∀ (rem : List String) (fs : FileSys), RollInv e0 fs rem →
      ∃ fs', rollbackAll fs rem = .ok fs' ∧
        ∀ f p, pageContent fs' f p = pageContent e0.fs f p := by
  intro rem
  induction rem with
  | nil =>
    intro fs hri
    refine ⟨fs, rfl, ?_⟩
    intro f p
    cases hjf : lookupA fs.journalFiles f with
    | none => exact hri.1 f hjf p
    | some entries => exact absurd (hri.2 f entries hjf).1 (List.not_mem_nil f)
  | cons k rest ih =>
    intro fs hri
    cases hjf : lookupA fs.journalFiles k with
    | none =>
      have hri2 : RollInv e0 fs rest := by
        refine ⟨hri.1, ?_⟩
        intro f entries hf
        obtain ⟨hmem, hrest⟩ := hri.2 f entries hf
        have hfk : f ≠ k := by
          intro he
          rw [he, hjf] at hf
          cases hf
        rcases List.mem_cons.mp hmem with he | hm
        · exact absurd he hfk
        · exact ⟨hm, hrest⟩
      obtain ⟨fs', hok, hres⟩ := ih fs hri2
      refine ⟨fs', ?_, hres⟩
      unfold rollbackAll
      rw [performRollback_none fs k hjf]
      exact hok
    | some entries =>
      obtain ⟨_, pages, pages0, hdta, he0, hrep⟩ := hri.2 k entries hjf
      have hri2 : RollInv e0
          ({ dataFiles := setA fs.dataFiles k (replayJournal entries pages),
             journalFiles := removeA fs.journalFiles k } : FileSys) rest := by
        constructor
        · intro f hjf2 p
          by_cases hfk : f = k
          · subst hfk
            unfold pageContent
            dsimp only
            rw [lookupA_setA_self, he0]
            show some (readPageB (replayJournal entries pages) p) = some (readPageB pages0 p)
            rw [readPageB_replay, hrep p]
          · dsimp only at hjf2
            rw [lookupA_removeA_ne _ _ _ hfk] at hjf2
            have := hri.1 f hjf2 p
            unfold pageContent at this ⊢
            dsimp only
            rw [lookupA_setA_ne _ _ _ _ hfk]
            exact this
        · intro f entries2 hf
          dsimp only at hf
          by_cases hfk : f = k
          · subst hfk
            rw [lookupA_removeA_self] at hf
            cases hf
          · rw [lookupA_removeA_ne _ _ _ hfk] at hf
            obtain ⟨hmem, pages2, pages02, hd2, he02, hrep2⟩ := hri.2 f entries2 hf
            rcases List.mem_cons.mp hmem with he | hm
            · exact absurd he hfk
            · refine ⟨hm, pages2, pages02, ?_, he02, hrep2⟩
              dsimp only
              rw [lookupA_setA_ne _ _ _ _ hfk]
              exact hd2
      obtain ⟨fs', hok, hres⟩ := ih _ hri2
      refine ⟨fs', ?_, hres⟩
      unfold rollbackAll
      rw [performRollback_some fs k entries pages hjf hdta]
      exact hok

/-- Claim C3: for every transaction begun on a clean engine (no leftover
journals, empty journaled-pages map) and every sequence of page writes that
all succeed, an explicit rollback restores every page of every data file to
its pre-transaction content. -/
theorem c3_rollback_restores_pages (e0 e1 e2 : TxEngine)
    (ws : List (String × Nat × Nat))
    (hact : e0.transactionActive = true)
    (hjp : e0.journaledPages = [])
    (hjf : e0.fs.journalFiles = [])
    (hw : applyWrites e0 ws = some e1)
    (hr : rollbackTransaction e1 = .ok e2)
    (f : String) (p : Nat) :
    pageContent e2.fs f p = pageContent e0.fs f p := by
  have hinv := applyWrites_inv e0 ws e0 e1 (txInv_init e0 hact hjp hjf) hw
  have hri := rollInv_of_txInv e0 e1 hinv
  obtain ⟨fs', hok, hres⟩ := rollbackAll_restores e0 _ e1.fs hri
  unfold rollbackTransaction at hr
  rw [hinv.1] at hr
  simp only [Bool.not_eq_true] at hr
  rw [if_neg (by simp)] at hr
  rw [hok] at hr
  have he2 := Except.ok.inj hr
  rw [← he2]
  exact hres f p

/-- Witness for `c3_rollback_restores_pages`: one table file, two writes to
page 1 (journaled once), rollback restores the page. -/
theorem c3_rollback_restores_pages_witness :
    (⟨⟨[("t.db", [(0, 1), (1, 2)])], []⟩, true, []⟩ : TxEngine).transactionActive = true ∧
    applyWrites ⟨⟨[("t.db", [(0, 1), (1, 2)])], []⟩, true, []⟩
        [("t.db", 1, 9), ("t.db", 1, 10)] =
      some ⟨⟨[("t.db", [(0, 1), (1, 10)])], [("t.db", [(1, 2)])]⟩, true, [("t.db", [1])]⟩ ∧
    rollbackTransaction
        ⟨⟨[("t.db", [(0, 1), (1, 10)])], [("t.db", [(1, 2)])]⟩, true, [("t.db", [1])]⟩ =
      .ok ⟨⟨[("t.db", [(0, 1), (1, 2)])], []⟩, false, []⟩ ∧
    pageContent (⟨[("t.db", [(0, 1), (1, 2)])], []⟩ : FileSys) "t.db" 1 =
      pageContent (⟨[("t.db", [(0, 1), (1, 2)])], []⟩ : FileSys) "t.db" 1 :=
  ⟨rfl, by decide, rfl,
   c3_rollback_restores_pages
     ⟨⟨[("t.db", [(0, 1), (1, 2)])], []⟩, true, []⟩
     ⟨⟨[("t.db", [(0, 1), (1, 10)])], [("t.db", [(1, 2)])]⟩, true, [("t.db", [1])]⟩
     ⟨⟨[("t.db", [(0, 1), (1, 2)])], []⟩, false, []⟩
     [("t.db", 1, 9), ("t.db", 1, 10)]
     rfl rfl rfl (by decide) rfl "t.db" 1⟩

/-- Claim C4 counterexample: on an idle engine the storage-level
`commit_transaction` and `rollback_transaction` return silently without any
transaction-state error, leaving the engine unchanged; the claim says they
fail. -/
theorem c4_idle_storage_ops_counterexample :
    commitTransaction ⟨⟨[("t.db", [(0, 1)])], []⟩, false, []⟩ =
      ⟨⟨[("t.db", [(0, 1)])], []⟩, false, []⟩ ∧
    rollbackTransaction ⟨⟨[("t.db", [(0, 1)])], []⟩, false, []⟩ =
      .ok ⟨⟨[("t.db", [(0, 1)])], []⟩, false, []⟩ :=
  ⟨rfl, rfl⟩

/-- Claim C4 (amended): the COMMIT and ROLLBACK commands raise a
transaction-state `ValueError` when no transaction is active, but the
storage-engine operations `commit_transaction` and `rollback_transaction`
silently return without doing anything when the engine is idle. -/
theorem c4_commit_rollback_while_idle (e : TxEngine)
    (he : e.transactionActive = false) :
    commitTransaction e = e ∧
    rollbackTransaction e = .ok e ∧
    (∀ dispatchResult : Except PyErr Nat,
      executeCommand "COMMIT" false dispatchResult =
        ([], false, .error (.valueError "No transaction to commit."))) ∧
    (∀ dispatchResult : Except PyErr Nat,
      executeCommand "ROLLBACK" false dispatchResult =
        ([], false, .error (.valueError "No transaction to roll back."))) := by
  refine ⟨?_, ?_, fun _ => rfl, fun _ => rfl⟩
  · unfold commitTransaction
    rw [if_pos (by simp [he])]
  · unfold rollbackTransaction
    rw [if_pos (by simp [he])]

/-- Witness for `c4_commit_rollback_while_idle` on a fresh idle engine. -/
theorem c4_commit_rollback_while_idle_witness :
    (⟨⟨[], []⟩, false, []⟩ : TxEngine).transactionActive = false ∧
    commitTransaction ⟨⟨[], []⟩, false, []⟩ = ⟨⟨[], []⟩, false, []⟩ ∧
    rollbackTransaction ⟨⟨[], []⟩, false, []⟩ = .ok ⟨⟨[], []⟩, false, []⟩ ∧
    executeCommand "COMMIT" false (Except.ok (0 : Nat)) =
      ([], false, .error (.valueError "No transaction to commit.")) :=
  ⟨rfl,
   (c4_commit_rollback_while_idle ⟨⟨[], []⟩, false, []⟩ rfl).1,
   (c4_commit_rollback_while_idle ⟨⟨[], []⟩, false, []⟩ rfl).2.1,
   (c4_commit_rollback_while_idle ⟨⟨[], []⟩, false, []⟩ rfl).2.2.1 (Except.ok 0)⟩

/-- Claim C10: after `_perform_rollback` returns or raises, the journal file
no longer exists — the `finally` block deletes it even when the replay fails
because the data file cannot be opened, in which case the error still
propagates. -/
theorem c10_journal_removed_unconditionally (fs : FileSys) (path : String) :
    lookupA (performRollback fs path).2.journalFiles path = none ∧
    ((lookupA fs.journalFiles path).isSome → lookupA fs.dataFiles path = none →
      (performRollback fs path).1 = some PyErr.fileNotFoundError) := by
  cases hj : lookupA fs.journalFiles path with
  | none =>
    rw [performRollback_none fs path hj]
    exact ⟨hj, fun hs _ => absurd hs (by simp)⟩
  | some entries =>
    cases hdta : lookupA fs.dataFiles path with
    | none =>
      unfold performRollback
      rw [hj, hdta]
      refine ⟨?_, fun _ _ => rfl⟩
      dsimp only
      exact lookupA_removeA_self _ _
    | some pages =>
      rw [performRollback_some fs path entries pages hj hdta]
      refine ⟨?_, ?_⟩
      · dsimp only
        exact lookupA_removeA_self _ _
      · intro _ hd2
        simp at hd2

/-- Witness for `c10_journal_removed_unconditionally`: an orphan journal for
a data file that does not exist is deleted while the error propagates. -/
theorem c10_journal_removed_unconditionally_witness :
    (lookupA (⟨[], [("t.db", [(1, 7)])]⟩ : FileSys).journalFiles "t.db").isSome ∧
    lookupA (⟨[], [("t.db", [(1, 7)])]⟩ : FileSys).dataFiles "t.db" = none ∧
    lookupA (performRollback ⟨[], [("t.db", [(1, 7)])]⟩ "t.db").2.journalFiles "t.db" =
      none ∧
    (performRollback ⟨[], [("t.db", [(1, 7)])]⟩ "t.db").1 =
      some PyErr.fileNotFoundError :=
  ⟨by decide, by decide,
   (c10_journal_removed_unconditionally ⟨[], [("t.db", [(1, 7)])]⟩ "t.db").1,
   (c10_journal_removed_unconditionally ⟨[], [("t.db", [(1, 7)])]⟩ "t.db").2
     (by decide) (by decide)⟩

/-! Embedding of `_execute_select` and its helpers.  The storage engine is
abstracted as an oracle of the operations the planner calls
(`get_table_metadata`, `get_all_records`, `search_pk`, `search_index`); a
table exists exactly when its metadata resolves. -/

/-- Page-0 table metadata: schema (ordered column to type-token map), the
primary-key column, and the index-name to column map. -/
structure TableMeta where
  schema : List (String × String)
  primaryKey : String
  indexes : List (String × String)
deriving DecidableEq, Repr

/-- Oracle for the storage operations `_execute_select` performs. -/
structure StorageModel where
  meta : String → Option TableMeta
  allRecords : String → List PyRecord
  searchPk : String → PyVal → Option PyRecord
  searchIndex : String → PyVal → Option PyVal

/-- A FROM clause: `{type: table, name}` or
`{type: join, join_type, left, right, on}`. -/
inductive FromClause where
  | table (name : String)
  | join (joinType : String) (leftName rightName leftColumn rightColumn : String)

/-- A parsed SELECT command. -/
structure SelectCmd where
  columns : List SelectPart
  source : FromClause
  whereCl : Option Clause
  groupBy : Option (List String)
  orderBy : Option (String × String)

/-- Embedding of `_full_scan_with_filter(table_name, where_clause,
data_context, records_to_filter)`. -/
def fullScanFilter (s : StorageModel) (ctx : List (String × List PyRecord))
    (tableName : Option String) (whereCl : Option Clause)
    (recordsToFilter : Option (List PyRecord)) : Except PyErr (List PyRecord) :=
  let go : List PyRecord → Except PyErr (List PyRecord) := fun rs =>
    match whereCl with
    | none => .ok rs
    | some w => .ok (rs.filter (fun r => evalWhere r w))
  match recordsToFilter with
  | some rs => go rs
  | none =>
    match tableName with
    | some t =>
      match lookupA ctx t with
      | some rs => go rs
      | none =>
        match s.meta t with
        | some _ => go (s.allRecords t)
        | none => .error (.valueError "Table does not exist.")
    | none =>
      match whereCl with
      | some _ => .error (.valueError "No records provided for filtering.")
      | none => .ok []

/-- Qualify every key of a row with its table name, as the join does. -/
def qualifyRecord (tname : String) (r : PyRecord) : PyRecord :=
  r.map (fun kv => (tname ++ "." ++ kv.1, kv.2))

/-- Embedding of `_execute_join`: full-scan both sides, nested-loop match on
the ON columns (Python `==`, so two missing/None values match), LEFT rows
with no match get a null-filled right side enumerated from the right table's
schema. -/
def executeJoin (s : StorageModel) (ctx : List (String × List PyRecord))
    (joinType leftName rightName leftColumn rightColumn : String) :
    Except PyErr (List PyRecord) :=
  match fullScanFilter s ctx (some leftName) none none with
  | .error e => .error e
  | .ok leftRecords =>
    match fullScanFilter s ctx (some rightName) none none with
    | .error e => .error e
    | .ok rightRecords =>
      match s.meta rightName with
      | none => .error .fileNotFoundError
      | some m =>
        let nullRightRow : PyRecord :=
          m.schema.map (fun col => (rightName ++ "." ++ col.1, PyVal.null))
        .ok (leftRecords.flatMap (fun l =>
          let ms := rightRecords.filter (fun r =>
            pyEq ((dictGet l leftColumn).getD .null) ((dictGet r rightColumn).getD .null))
          if ms.isEmpty && joinType == "LEFT" then
            [qualifyRecord leftName l ++ nullRightRow]
          else
            ms.map (fun r => qualifyRecord leftName l ++ qualifyRecord rightName r)))

/-- Embedding of `_project_columns`: wildcard passes records through; a
column resolves by qualified key, then by `.name` suffix, else null. -/
def projectColumns (records : List PyRecord) (parts : List SelectPart) : List PyRecord :=
  if records.isEmpty then []
  else if parts.any (fun p => match p with | .wildcard => true | _ => false) then records
  else records.map (fun record =>
    parts.foldl (fun nr part =>
      match part with
      | .column tbl name =>
        let colKey := match tbl with | some tb => tb ++ "." ++ name | none => name
        match dictGet record colKey with
        | some v => dictSet nr colKey v
        | none =>
          match record.find? (fun kv => kv.1.endsWith ("." ++ name)) with
          | some kv => dictSet nr kv.1 kv.2
          | none => dictSet nr name PyVal.null
      | _ => nr) [])

/-- Group key of a record: the tuple of its group-by column values
(`record.get(col)`, missing and None both null). -/
def groupKey (cols : List String) (r : PyRecord) : List PyVal :=
  cols.map (fun c => (dictGet r c).getD PyVal.null)

/-- Ordered grouping, first-occurrence order of keys, as a Python
`defaultdict(list)` fill loop produces. -/
def groupInsert (groups : List (List PyVal × List PyRecord)) (key : List PyVal)
    (r : PyRecord) : List (List PyVal × List PyRecord) :=
  if groups.any (fun g => g.1 == key) then
    groups.map (fun g => if g.1 == key then (g.1, g.2 ++ [r]) else g)
  else groups ++ [(key, [r])]

/-- Tests that a SELECT item is an aggregate. -/
def isAggregatePart : SelectPart → Bool
  | .aggregate _ _ _ => true
  | _ => false

/-- Embedding of `_perform_grouping`: every plain selected column must be
grouped on, rows are grouped by key tuple, and each output row is the
group-by assignment updated with the group's aggregates. -/
def performGrouping (parts : List SelectPart) (groupByCols : List String)
    (records : List PyRecord) : Except PyErr (List PyRecord) :=
  let selectedCols := parts.filterMap (fun p =>
    match p with | .column _ n => some n | _ => none)
  if ¬(selectedCols.all (fun c => groupByCols.contains c)) then
    .error (.valueError "Selected column is not in GROUP BY clause and is not an aggregate function.")
  else
    let groups := records.foldl (fun gs r => groupInsert gs (groupKey groupByCols r) r) []
    let aggregates := parts.filter isAggregatePart
    groups.foldl (fun acc g =>
      match acc with
      | .error e => .error e
      | .ok rows =>
        let baseRow : PyRecord :=
          (groupByCols.zip g.1).foldl (fun r kv => dictSet r kv.1 kv.2) []
        if aggregates.isEmpty then .ok (rows ++ [baseRow])
        else
          match performAggregation aggregates g.2 with
          | .error e => .error e
          | .ok [] => .error .indexError
          | .ok (aggRow1 :: _) =>
            .ok (rows ++ [aggRow1.foldl (fun r kv => dictSet r kv.1 kv.2) baseRow]))
      (.ok [])

/-- The `actual_sort_key` scan of `_execute_select`: the first key of the
first row that ends in `.column` or equals `column`. -/
def findSortKey (r0 : PyRecord) (sortColumn : String) : Option String :=
  (r0.find? (fun kv => kv.1.endsWith ("." ++ sortColumn) || kv.1 == sortColumn)).map
    (fun kv => kv.1)

/-- Python `list.sort(key=..., reverse=...)` over the sort-key values: a
missing key raises `KeyError`; comparing key values of different runtime
types (or None with None) raises `TypeError` — Timsort compares a
data-dependent subset of pairs, so the model errs exactly when two or more
records exist and the key values are not one homogeneous non-null type; the
sort itself is stable in the requested direction. -/
def sortRecords (records : List PyRecord) (key : String) (desc : Bool) :
    Except PyErr (List PyRecord) :=
  if records.any (fun r => (dictGet r key).isNone) then .error (.keyError key)
  else
    let vals := records.filterMap (fun r => dictGet r key)
    if records.length ≥ 2 &&
        !(vals.all (fun v => v.tyTag == (vals.headD PyVal.null).tyTag) &&
          (vals.headD PyVal.null).tyTag != 2) then
      .error .typeError
    else
      .ok (records.mergeSort (fun a b =>
        let va := (dictGet a key).getD PyVal.null
        let vb := (dictGet b key).getD PyVal.null
        if desc then (pyGe va vb).getD true else (pyLe va vb).getD true))

/-- The plan-selection prefix of `_execute_select`: decide `can_use_index`,
extract the index-check condition (the first conjunct of an AND — an empty
conjunct list raises `IndexError`, a compound conjunct raises `KeyError` at
`icc['operator']`), and run the probe; returns `(index_used,
initial_records)`. -/
def selectProbe (s : StorageModel) (cmd : SelectCmd) :
    Except PyErr (Bool × List PyRecord) :=
  let canUseIndex : Bool :=
    cmd.whereCl.isSome &&
    (match cmd.source with | .table _ => true | _ => false) &&
    (match cmd.whereCl with | some (.OR _) => false | _ => true)
  if canUseIndex then
    match cmd.source, cmd.whereCl with
    | .table tname, some w =>
      match (match w with
             | .condition c o v => Except.ok (some (Clause.condition c o v))
             | .AND [] => Except.error PyErr.indexError
             | .AND (c0 :: _) => Except.ok (some c0)
             | _ => Except.ok none) with
      | .error e => .error e
      | .ok none => .ok (false, [])
      | .ok (some (.condition wcol oper wval)) =>
        if oper = "=" then
          match s.meta tname with
          | none => .error (.valueError "Table does not exist.")
          | some m =>
            if wcol = m.primaryKey then
              .ok (true, match s.searchPk tname wval with
                         | some r => if r.isEmpty then [] else [r]
                         | none => [])
            else
              match m.indexes.find? (fun ic => ic.2 == wcol) with
              | none => .ok (false, [])
              | some ic =>
                .ok (true, match s.searchIndex ic.1 wval with
                           | some pkval =>
                             if pyTruthy pkval then
                               match s.searchPk tname pkval with
                               | some r => if r.isEmpty then [] else [r]
                               | none => []
                             else []
                           | none => [])
        else .ok (false, [])
      | .ok (some _) => .error (.keyError "operator")
    | _, _ => .ok (false, [])
  else .ok (false, [])

/-- Embedding of `_execute_select`: probe or scan for the initial record
set, apply the full WHERE as a backstop, then GROUP BY or aggregation, then
projection (when no aggregates), then ORDER BY on non-empty results. -/
def executeSelect (s : StorageModel) (ctx : List (String × List PyRecord))
    (cmd : SelectCmd) : Except PyErr (List PyRecord) :=
  match selectProbe s cmd with
  | .error e => .error e
  | .ok (indexUsed, initFromProbe) =>
    match (if indexUsed then Except.ok initFromProbe
           else match cmd.source with
                | .join jt ln rn lc rc => executeJoin s ctx jt ln rn lc rc
                | .table tname => fullScanFilter s ctx (some tname) none none) with
    | .error e => .error e
    | .ok initialRecords =>
      match fullScanFilter s ctx none cmd.whereCl (some initialRecords) with
      | .error e => .error e
      | .ok results1 =>
        match (match cmd.groupBy with
               | some cols => performGrouping cmd.columns cols results1
               | none =>
                 if cmd.columns.any isAggregatePart then
                   performAggregation cmd.columns results1
                 else .ok results1) with
        | .error e => .error e
        | .ok results2 =>
          let results3 :=
            if !cmd.columns.any isAggregatePart then projectColumns results2 cmd.columns
            else results2
          match cmd.orderBy with
          | none => .ok results3
          | some ob =>
            match results3 with
            | [] => .ok []
            | r0 :: _ =>
              match findSortKey r0 ob.1 with
              | none => .error (.valueError "Cannot order by column.")
              | some key => sortRecords results3 key (ob.2 == "DESC")

/-- The single-table wildcard SELECT with a WHERE clause used in the plan
claims. -/
def wildcardSelect (t : String) (w : Clause) : SelectCmd :=
  ⟨[.wildcard], .table t, some w, none, none⟩

theorem projectColumns_wildcard (rs : List PyRecord) :
    projectColumns rs [.wildcard] = rs := by
  cases rs with
  | nil => rfl
  | cons r rest => rfl

theorem fullScanFilter_table (s : StorageModel) (ctx : List (String × List PyRecord))
    (t : String) (m : TableMeta) (hctx : lookupA ctx t = none)
    (hmeta : s.meta t = some m) :
    fullScanFilter s ctx (some t) none none = .ok (s.allRecords t) := by
  unfold fullScanFilter
  simp only [hctx, hmeta]

theorem executeSelect_probe_fallback (s : StorageModel)
    (ctx : List (String × List PyRecord)) (t : String) (m : TableMeta) (w : Clause)
    (hmeta : s.meta t = some m) (hctx : lookupA ctx t = none)
    (hprobe : selectProbe s (wildcardSelect t w) = .ok (false, [])) :
    executeSelect s ctx (wildcardSelect t w) =
      .ok ((s.allRecords t).filter (fun r => evalWhere r w)) := by
  unfold executeSelect
  rw [hprobe]
  dsimp only [wildcardSelect]
  rw [fullScanFilter_table s ctx t m hctx hmeta]
  simp [projectColumns_wildcard, fullScanFilter, isAggregatePart]

theorem executeSelect_probe_used (s : StorageModel)
    (ctx : List (String × List PyRecord)) (t : String) (w : Clause)
    (init : List PyRecord)
    (hprobe : selectProbe s (wildcardSelect t w) = .ok (true, init)) :
    executeSelect s ctx (wildcardSelect t w) =
      .ok (init.filter (fun r => evalWhere r w)) := by
  unfold executeSelect
  rw [hprobe]
  simp [wildcardSelect, projectColumns_wildcard, fullScanFilter, isAggregatePart]

/-- The body of the probe once a top-level equality condition on `col` was
found: primary key goes through `search_pk`, otherwise the first secondary
index on `col` goes through `search_index` then `search_pk`. -/
def probeCore (s : StorageModel) (t col : String) (v : PyVal) :
    Except PyErr (Bool × List PyRecord) :=
  match s.meta t with
  | none => .error (.valueError "Table does not exist.")
  | some m =>
    if col = m.primaryKey then
      .ok (true, match s.searchPk t v with
                 | some r => if r.isEmpty then [] else [r]
                 | none => [])
    else
      match m.indexes.find? (fun ic => ic.2 == col) with
      | none => .ok (false, [])
      | some ic =>
        .ok (true, match s.searchIndex ic.1 v with
                   | some pkval =>
                     if pyTruthy pkval then
                       match s.searchPk t pkval with
                       | some r => if r.isEmpty then [] else [r]
                       | none => []
                     else []
                   | none => [])

theorem selectProbe_cond_eq (s : StorageModel) (t col oper : String) (v : PyVal) :
    selectProbe s (wildcardSelect t (.condition col oper v)) =
      if oper = "=" then probeCore s t col v else .ok (false, []) := rfl

theorem selectProbe_and_cond_eq (s : StorageModel) (t col oper : String) (v : PyVal)
    (rest : List Clause) :
    selectProbe s (wildcardSelect t (.AND (.condition col oper v :: rest))) =
      if oper = "=" then probeCore s t col v else .ok (false, []) := rfl

theorem selectProbe_or_eq (s : StorageModel) (t : String) (conds : List Clause) :
    selectProbe s (wildcardSelect t (.OR conds)) = .ok (false, []) := rfl

theorem selectProbe_and_and_eq (s : StorageModel) (t : String)
    (cs rest : List Clause) :
    selectProbe s (wildcardSelect t (.AND (.AND cs :: rest))) =
      .error (.keyError "operator") := rfl

theorem selectProbe_and_or_eq (s : StorageModel) (t : String)
    (cs rest : List Clause) :
    selectProbe s (wildcardSelect t (.AND (.OR cs :: rest))) =
      .error (.keyError "operator") := rfl

theorem probeCore_not_indexed (s : StorageModel) (t : String) (m : TableMeta)
    (col : String) (v : PyVal) (hmeta : s.meta t = some m)
    (hpk : col ≠ m.primaryKey) (hidx : ∀ p ∈ m.indexes, col ≠ p.2) :
    probeCore s t col v = .ok (false, []) := by
  unfold probeCore
  rw [hmeta]
  dsimp only
  rw [if_neg hpk]
  have hfind : m.indexes.find? (fun ic => ic.2 == col) = none := by
    rw [List.find?_eq_none]
    intro ic hic
    intro hbeq
    have hic2 : ic.2 = col := by simpa using hbeq
    exact hidx ic hic hic2.symm
  rw [hfind]

theorem probeCore_pk (s : StorageModel) (t : String) (m : TableMeta)
    (col : String) (v : PyVal) (hmeta : s.meta t = some m)
    (hpk : col = m.primaryKey) :
    probeCore s t col v =
      .ok (true, match s.searchPk t v with
                 | some r => if r.isEmpty then [] else [r]
                 | none => []) := by
  unfold probeCore
  rw [hmeta]
  dsimp only
  rw [if_pos hpk]

theorem executeSelect_probe_error (s : StorageModel)
    (ctx : List (String × List PyRecord)) (cmd : SelectCmd) (e : PyErr)
    (hprobe : selectProbe s cmd = .error e) :
    executeSelect s ctx cmd = .error e := by
  unfold executeSelect
  rw [hprobe]

theorem executeSelect_join_eq (s : StorageModel) (ctx : List (String × List PyRecord))
    (jt ln rn lc rc : String) (w : Clause) :
    executeSelect s ctx ⟨[.wildcard], .join jt ln rn lc rc, some w, none, none⟩ =
      (executeJoin s ctx jt ln rn lc rc).map
        (fun rows => rows.filter (fun r => evalWhere r w)) := by
  unfold executeSelect
  rw [show selectProbe s ⟨[.wildcard], .join jt ln rn lc rc, some w, none, none⟩ =
      .ok (false, []) from rfl]
  dsimp only
  cases hj : executeJoin s ctx jt ln rn lc rc with
  | error e => simp [Except.map]
  | ok rows => simp [Except.map, projectColumns_wildcard, fullScanFilter, isAggregatePart]

/-- Claim C6 (amended): for a single-table wildcard SELECT, a top-level OR,
a non-equality condition, an equality on a column that is neither the
primary key nor indexed — alone or as the first conjunct of an AND — all
execute as a full scan filtered by the full WHERE; an AND whose first
conjunct is itself compound raises a `KeyError` for the missing `operator`
key instead of falling back; a primary-key equality condition uses the
`search_pk` probe (filtered by the full WHERE) instead of the scan; and a
join source always runs the nested-loop join followed by the full WHERE
filter. -/
theorem c6_select_plan (s : StorageModel) (ctx : List (String × List PyRecord))
    (t : String) (m : TableMeta)
    (hmeta : s.meta t = some m) (hctx : lookupA ctx t = none) :
    (∀ conds, executeSelect s ctx (wildcardSelect t (.OR conds)) =
        .ok ((s.allRecords t).filter (fun r => evalWhere r (.OR conds)))) ∧
    (∀ col oper v,
      (oper ≠ "=" ∨ (col ≠ m.primaryKey ∧ ∀ p ∈ m.indexes, col ≠ p.2)) →
      executeSelect s ctx (wildcardSelect t (.condition col oper v)) =
        .ok ((s.allRecords t).filter (fun r => evalWhere r (.condition col oper v)))) ∧
    (∀ col oper v rest,
      (oper ≠ "=" ∨ (col ≠ m.primaryKey ∧ ∀ p ∈ m.indexes, col ≠ p.2)) →
      executeSelect s ctx (wildcardSelect t (.AND (.condition col oper v :: rest))) =
        .ok ((s.allRecords t).filter
          (fun r => evalWhere r (.AND (.condition col oper v :: rest))))) ∧
    (∀ cs rest,
      executeSelect s ctx (wildcardSelect t (.AND (.AND cs :: rest))) =
        .error (.keyError "operator") ∧
      executeSelect s ctx (wildcardSelect t (.AND (.OR cs :: rest))) =
        .error (.keyError "operator")) ∧
    (∀ v, executeSelect s ctx (wildcardSelect t (.condition m.primaryKey "=" v)) =
        .ok ((match s.searchPk t v with
              | some r => if r.isEmpty then [] else [r]
              | none => []).filter
            (fun r => evalWhere r (.condition m.primaryKey "=" v)))) ∧
    (∀ jt ln rn lc rc w,
      executeSelect s ctx ⟨[.wildcard], .join jt ln rn lc rc, some w, none, none⟩ =
        (executeJoin s ctx jt ln rn lc rc).map
          (fun rows => rows.filter (fun r => evalWhere r w))) := by
  have hfallProbe : ∀ (col oper : String) (v : PyVal),
      (oper ≠ "=" ∨ (col ≠ m.primaryKey ∧ ∀ p ∈ m.indexes, col ≠ p.2)) →
      (if oper = "=" then probeCore s t col v else .ok (false, [])) =
        (.ok (false, []) : Except PyErr (Bool × List PyRecord)) := by
    intro col oper v hfall
    by_cases hop : oper = "="
    · rw [if_pos hop]
      rcases hfall with h | ⟨hpk, hidx⟩
      · exact absurd hop h
      · exact probeCore_not_indexed s t m col v hmeta hpk hidx
    · rw [if_neg hop]
  refine ⟨?_, ?_, ?_, ?_, ?_, ?_⟩
  · intro conds
    exact executeSelect_probe_fallback s ctx t m _ hmeta hctx
      (selectProbe_or_eq s t conds)
  · intro col oper v hfall
    exact executeSelect_probe_fallback s ctx t m _ hmeta hctx
      ((selectProbe_cond_eq s t col oper v).trans (hfallProbe col oper v hfall))
  · intro col oper v rest hfall
    exact executeSelect_probe_fallback s ctx t m _ hmeta hctx
      ((selectProbe_and_cond_eq s t col oper v rest).trans (hfallProbe col oper v hfall))
  · intro cs rest
    exact ⟨executeSelect_probe_error s ctx _ _ (selectProbe_and_and_eq s t cs rest),
           executeSelect_probe_error s ctx _ _ (selectProbe_and_or_eq s t cs rest)⟩
  · intro v
    refine executeSelect_probe_used s ctx t _ _ ?_
    rw [selectProbe_cond_eq s t m.primaryKey "=" v, if_pos rfl]
    exact probeCore_pk s t m m.primaryKey v hmeta rfl
  · intro jt ln rn lc rc w
    exact executeSelect_join_eq s ctx jt ln rn lc rc w

/-- A concrete one-table store used to evaluate the plan claims. -/
def sampleMeta : TableMeta := ⟨[("id", "INT"), ("a", "INT")], "id", []⟩

/-- Storage oracle for `sampleMeta`: one table `t` with one row; the probe
oracles return nothing. -/
def sampleStore : StorageModel :=
  ⟨fun tn => if tn = "t" then some sampleMeta else none,
   fun _ => [[("id", PyVal.num 1), ("a", PyVal.num 2)]],
   fun _ _ => none,
   fun _ _ => none⟩

/-- Claim C6 counterexample: a WHERE of shape `AND [AND [...], ...]` (an AND
whose first conjunct is compound) makes `_execute_select` raise `KeyError`
at `index_check_condition['operator']`; the claim says every non-eligible
shape executes as a full scan and does not error. -/
theorem c6_compound_conjunct_counterexample :
    executeSelect sampleStore []
      (wildcardSelect "t" (.AND [.AND [.condition "a" "=" (PyVal.num 2),
        .condition "id" "=" (PyVal.num 1)], .condition "id" "=" (PyVal.num 1)])) =
      .error (.keyError "operator") := rfl

/-- Witness for `c6_select_plan` on the concrete store: a non-equality
condition falls back to the full scan with the WHERE applied. -/
theorem c6_select_plan_witness :
    sampleStore.meta "t" = some sampleMeta ∧
    lookupA ([] : List (String × List PyRecord)) "t" = none ∧
    executeSelect sampleStore [] (wildcardSelect "t" (.condition "a" "<" (PyVal.num 5))) =
      .ok ((sampleStore.allRecords "t").filter
        (fun r => evalWhere r (.condition "a" "<" (PyVal.num 5)))) :=
  ⟨rfl, rfl,
   (c6_select_plan sampleStore [] "t" sampleMeta rfl rfl).2.1 "a" "<" (PyVal.num 5)
     (Or.inl (by decide))⟩

/-! Embedding of the B-tree of storage_engine.py (`_btree_insert`,
`_insert_non_full`, `_split_child`, `_find_page_of_node`, `_btree_search`,
`_traverse_all`) over a table file.  Keys are modelled as integers (the
table claims concern integer primary keys; Python compares them the same
way) and stored values as records.  `BTREE_ORDER` is 16, so a full node has
31 keys and the split index is 15.  Unbounded loops and recursion over
on-disk pages carry fuel: a `none` result for every fuel amount proves the
source loops forever. -/

/-- A B-tree node as pickled into a page. -/
structure BTreeNode where
  isLeaf : Bool
  keys : List Int
  values : List PyRecord
  children : List Nat
deriving DecidableEq, Repr

/-- One page of a table file: the metadata page, a pickled node, or an
all-zero page (which `_read_page` reads as `None`). -/
inductive TablePage where
  | metaPage (rootPage nextPage : Nat)
  | nodePage (node : BTreeNode)
  | emptyPage
deriving DecidableEq, Repr

/-- Read one page; offsets beyond the end of the file read as zero bytes. -/
def readPage (f : List TablePage) (p : Nat) : TablePage :=
  f.getD p .emptyPage

/-- Read a page expected to hold a node; a zero page is `None` (a metadata
page would fail on attribute access in Python, also modelled as `none`). -/
def readNode (f : List TablePage) (p : Nat) : Option BTreeNode :=
  match readPage f p with
  | .nodePage n => some n
  | _ => none

/-- Write one page, implicitly zero-extending the file as a seek past the
end of a file does. -/
def writePageT (f : List TablePage) (p : Nat) (c : TablePage) : List TablePage :=
  (f ++ List.replicate (p + 1 - f.length) TablePage.emptyPage).set p c

/-- Python `list.insert(i, a)`: the index is clamped into range. -/
def pyInsert {α : Type} (l : List α) (i : Nat) (a : α) : List α :=
  l.take i ++ a :: l.drop i

/-- The in-memory metadata dict threaded through an insertion. -/
structure InsCtx where
  rootPage : Nat
  nextPage : Nat
deriving DecidableEq, Repr

/-- The BFS of `_find_page_of_node`: pop a page, return it when its node
matches (first key equal to `key`, or containment for deletes), otherwise
enqueue an internal node's children; an exhausted queue falls back to
`start_page` (`start_page + 1` for `is_child`).  The Python loop has no
other exit, so `none` (fuel exhausted for every fuel) is divergence. -/
def findPageAux (f : List TablePage) (key : Int) (isDelete isChild : Bool)
    (startPage : Nat) : Nat → List Nat → Option Nat
  | 0, _ => none
  | _ + 1, [] => some (if isChild then startPage + 1 else startPage)
  | fuel + 1, p :: q =>
    match readNode f p with
    | none => findPageAux f key isDelete isChild startPage fuel q
    | some n =>
      let hit : Bool :=
        match n.keys with
        | [] => false
        | k0 :: _ => if isDelete then n.keys.contains key else k0 == key
      if hit then some p
      else findPageAux f key isDelete isChild startPage fuel
        (if n.isLeaf then q else q ++ n.children)

/-- Embedding of `_split_child`: allocate the sibling page, promote the
middle key into the parent, split keys/values/children, then persist the
parent, the child and the sibling — the parent and child pages are located
by `_find_page_of_node` over the current on-disk tree. -/
def splitChild (f : List TablePage) (meta : InsCtx) (parent : BTreeNode)
    (childIndex : Nat) (child : BTreeNode) (fuel : Nat) :
    Option (List TablePage × InsCtx × BTreeNode × BTreeNode) :=
  let newNodePage := meta.nextPage
  let meta1 : InsCtx := ⟨meta.rootPage, meta.nextPage + 1⟩
  match child.keys.get? 15 with
  | none => none
  | some midKey =>
    let parent1 : BTreeNode :=
      { parent with keys := pyInsert parent.keys childIndex midKey,
                    children := pyInsert parent.children (childIndex + 1) newNodePage }
    let newNode : BTreeNode :=
      if child.isLeaf then ⟨true, child.keys.drop 16, child.values.drop 16, []⟩
      else ⟨false, child.keys.drop 16, [], child.children.drop 16⟩
    let child1 : BTreeNode :=
      if child.isLeaf then ⟨true, child.keys.take 15, child.values.take 15, child.children⟩
      else ⟨false, child.keys.take 15, child.values, child.children.take 16⟩
    match parent1.keys with
    | [] => none
    | pk0 :: _ =>
      match findPageAux f pk0 false false meta1.rootPage fuel [meta1.rootPage] with
      | none => none
      | some pp =>
        let f1 := writePageT f pp (.nodePage parent1)
        let childKey : Int := match child1.keys with | [] => -1 | k :: _ => k
        match findPageAux f1 childKey false true meta1.rootPage fuel [meta1.rootPage] with
        | none => none
        | some cp =>
          let f2 := writePageT f1 cp (.nodePage child1)
          let f3 := writePageT f2 newNodePage (.nodePage newNode)
          some (f3, meta1, parent1, child1)

/-- Embedding of `_insert_non_full`: at a leaf, place `(key, value)` in
sorted position (scanning from the right) and persist the leaf at the page
`_find_page_of_node` locates by the mutated leaf's first key; at an internal
node, pick the child, split it first when full, then recurse into the child
re-read from disk. -/
def insertNonFull (f : List TablePage) (meta : InsCtx) (node : BTreeNode)
    (key : Int) (value : PyRecord) : Nat → Option (List TablePage × InsCtx)
  | 0 => none
  | fuel + 1 =>
    let i := node.keys.length -
      (node.keys.reverse.takeWhile (fun k => decide (key < k))).length
    if node.isLeaf then
      let node1 : BTreeNode :=
        { node with keys := pyInsert node.keys i key,
                    values := pyInsert node.values i value }
      match node1.keys with
      | [] => none
      | k0 :: _ =>
        match findPageAux f k0 false false meta.rootPage fuel [meta.rootPage] with
        | none => none
        | some p => some (writePageT f p (.nodePage node1), meta)
    else
      match node.children.get? i with
      | none => none
      | some cp =>
        match readNode f cp with
        | none => none
        | some child =>
          match (if child.keys.length = 31 then
                   match splitChild f meta node i child fuel with
                   | none => none
                   | some (f1, meta1, node1, _) =>
                     match node1.keys.get? i with
                     | none => none
                     | some ki =>
                       some (f1, meta1, node1, if ki < key then i + 1 else i)
                 else some (f, meta, node, i)) with
          | none => none
          | some (f2, meta2, node2, i2) =>
            match node2.children.get? i2 with
            | none => none
            | some cp2 =>
              match readNode f2 cp2 with
              | none => none
              | some child2 => insertNonFull f2 meta2 child2 key value fuel

/-- Embedding of `_btree_insert`: when the root is full, allocate a new root
whose only child is the old root, split the old root and retarget the
metadata, then insert-non-full from the (possibly new) root. -/
def btreeInsert (f : List TablePage) (key : Int) (value : PyRecord) (fuel : Nat) :
    Option (List TablePage) :=
  match readPage f 0 with
  | .metaPage rootPage nextPage =>
    match readNode f rootPage with
    | none => none
    | some root =>
      if root.keys.length = 31 then
        let newRootPage := nextPage
        let meta1 : InsCtx := ⟨rootPage, nextPage + 1⟩
        let newRoot : BTreeNode := ⟨false, [], [], [rootPage]⟩
        match splitChild f meta1 newRoot 0 root fuel with
        | none => none
        | some (f1, meta2, newRoot1, _) =>
          let f2 := writePageT f1 newRootPage (.nodePage newRoot1)
          let f3 := writePageT f2 0 (.metaPage newRootPage meta2.nextPage)
          match insertNonFull f3 ⟨newRootPage, meta2.nextPage⟩ newRoot1 key value fuel with
          | none => none
          | some (f4, _) => some f4
      else
        match insertNonFull f ⟨rootPage, nextPage⟩ root key value fuel with
        | none => none
        | some (f4, _) => some f4
  | _ => none

/-- The descent loop of `_btree_search`; the outer `none` is exhausted fuel
(a cyclic file), `some none` is Python's `None` (key absent). -/
def searchDescend (f : List TablePage) (key : Int) :
    Option BTreeNode → Nat → Option (Option PyRecord)
  | _, 0 => none
  | none, _ + 1 => some none
  | some n, fuel + 1 =>
    let i := (n.keys.takeWhile (fun k => decide (k < key))).length
    if n.isLeaf then
      match n.keys.get? i with
      | some ki =>
        if ki = key then
          match n.values.get? i with
          | some v => some (some v)
          | none => none
        else some none
      | none => some none
    else
      match n.children.get? i with
      | none => none
      | some cp => searchDescend f key (readNode f cp) fuel

/-- Embedding of `_btree_search` on a table file. -/
def btreeSearch (f : List TablePage) (key : Int) (fuel : Nat) :
    Option (Option PyRecord) :=
  match readPage f 0 with
  | .metaPage rootPage _ => searchDescend f key (readNode f rootPage) fuel
  | _ => none

/-- Embedding of `_traverse_all`: yield every leaf's values in order. -/
def traverseAll (f : List TablePage) : Nat → Option BTreeNode → Option (List PyRecord)
  | 0, _ => none
  | _ + 1, none => some []
  | fuel + 1, some n =>
    if n.isLeaf then some n.values
    else n.children.foldlM
      (fun acc c => (traverseAll f fuel (readNode f c)).map (fun l => acc ++ l)) []

/-- Embedding of `_btree_get_all` (the body of `get_all_records`). -/
def btreeGetAll (f : List TablePage) (fuel : Nat) : Option (List PyRecord) :=
  match readPage f 0 with
  | .metaPage rootPage _ => traverseAll f fuel (readNode f rootPage)
  | _ => none

/-- A table file holding a single leaf root, as `create_table` followed by
non-splitting inserts produces. -/
def leafTable (ks : List Int) (vs : List PyRecord) : List TablePage :=
  [.metaPage 1 2, .nodePage ⟨true, ks, vs, []⟩]

/-! List lemmas about the right-to-left insertion scan of `_insert_non_full`
and the left-to-right search scan of `_btree_search` on sorted key lists. -/

theorem takeWhile_append_single_false {α : Type} (p : α → Bool) (xs : List α) (a : α)
    (ha : p a = false) :
    ((xs ++ [a]).takeWhile p).length = (xs.takeWhile p).length := by
  induction xs with
  | nil => simp [List.takeWhile, ha]
  | cons x t ih =>
    cases hx : p x with
    | true => simp [List.takeWhile, hx, ih]
    | false => simp [List.takeWhile, hx]

theorem takeWhile_eq_self_of_all {α : Type} (p : α → Bool) (xs : List α)
    (h : ∀ x ∈ xs, p x = true) : xs.takeWhile p = xs := by
  induction xs with
  | nil => rfl
  | cons x t ih =>
    have h1 := h x (List.mem_cons_self x t)
    have h2 := ih (fun y hy => h y (List.mem_cons_of_mem x hy))
    simp [List.takeWhile_cons, h1, h2]

theorem insertPos_eq_takeWhile_le (ks : List Int) (pk : Int)
    (hs : ks.Sorted (· ≤ ·)) :
    ks.length - (ks.reverse.takeWhile (fun k => decide (pk < k))).length =
      (ks.takeWhile (fun k => decide (k ≤ pk))).length := by
  induction ks with
  | nil => rfl
  | cons k t ih =>
    obtain ⟨hk, ht⟩ := List.sorted_cons.mp hs
    by_cases hkp : k ≤ pk
    · have h1 : ((k :: t).reverse.takeWhile (fun k2 => decide (pk < k2))).length =
          (t.reverse.takeWhile (fun k2 => decide (pk < k2))).length := by
        rw [List.reverse_cons]
        exact takeWhile_append_single_false _ _ _ (by simp [not_lt.mpr hkp])
      have h2 : (t.reverse.takeWhile (fun k2 => decide (pk < k2))).length ≤ t.length := by
        calc (t.reverse.takeWhile (fun k2 => decide (pk < k2))).length
            ≤ t.reverse.length := (List.takeWhile_sublist _).length_le
          _ = t.length := List.length_reverse t
      have h3 : List.takeWhile (fun k2 => decide (k2 ≤ pk)) (k :: t) =
          k :: List.takeWhile (fun k2 => decide (k2 ≤ pk)) t := by
        simp [List.takeWhile_cons, hkp]
      rw [h1, h3, List.length_cons, List.length_cons, ← ih ht]
      omega
    · have hpk : pk < k := not_le.mp hkp
      have hall : ∀ x ∈ (k :: t).reverse, (fun k2 => decide (pk < k2)) x = true := by
        intro x hx
        rw [List.mem_reverse] at hx
        rcases List.mem_cons.mp hx with rfl | hxt
        · simp [hpk]
        · simp [lt_of_lt_of_le hpk (hk x hxt)]
      rw [takeWhile_eq_self_of_all _ _ hall, List.length_reverse,
        List.takeWhile_cons, show (decide (k ≤ pk)) = false by simp [hkp]]
      simp

theorem take_takeWhile_length {α : Type} (p : α → Bool) (l : List α) :
    l.take (l.takeWhile p).length = l.takeWhile p := by
  induction l with
  | nil => rfl
  | cons x t ih =>
    cases hx : p x with
    | true => simp [List.takeWhile_cons, hx, List.take_succ_cons, ih]
    | false => simp [List.takeWhile_cons, hx]

theorem drop_takeWhile_length {α : Type} (p : α → Bool) (l : List α) :
    l.drop (l.takeWhile p).length = l.dropWhile p := by
  induction l with
  | nil => rfl
  | cons x t ih =>
    cases hx : p x with
    | true => simp [List.takeWhile_cons, List.dropWhile_cons, hx, ih]
    | false => simp [List.takeWhile_cons, List.dropWhile_cons, hx]

theorem takeWhile_append_cons_false {α : Type} (p : α → Bool) (xs ys : List α) (a : α)
    (ha : p a = false) :
    (xs ++ a :: ys).takeWhile p = xs.takeWhile p := by
  induction xs with
  | nil => simp [List.takeWhile_cons, ha]
  | cons x t ih =>
    cases hx : p x with
    | true => simp [List.takeWhile_cons, hx, ih]
    | false => simp [List.takeWhile_cons, hx]

theorem takeWhile_takeWhile_of_imp {α : Type} (p q : α → Bool) (l : List α)
    (himp : ∀ x, p x = true → q x = true) :
    (l.takeWhile q).takeWhile p = l.takeWhile p := by
  induction l with
  | nil => rfl
  | cons x t ih =>
    cases hx : p x with
    | true =>
      have hq := himp x hx
      simp [List.takeWhile_cons, hx, hq, ih]
    | false =>
      cases hqx : q x with
      | true => simp [List.takeWhile_cons, hx, hqx]
      | false => simp [List.takeWhile_cons, hx, hqx]

theorem get?_at_takeWhile_length {α : Type} (p : α → Bool) (l : List α)
    (h : (l.takeWhile p).length < l.length) :
    ∃ x, l.get? (l.takeWhile p).length = some x ∧ p x = false := by
  induction l with
  | nil => simp at h
  | cons y t ih =>
    cases hy : p y with
    | false => exact ⟨y, by simp [List.takeWhile_cons, hy], hy⟩
    | true =>
      rw [List.takeWhile_cons, hy] at h ⊢
      simp only [List.length_cons, Nat.add_lt_add_iff_right] at h
      obtain ⟨x, hx1, hx2⟩ := ih (by simpa using h)
      exact ⟨x, by simpa using hx1, hx2⟩

theorem dropWhile_le_gt (ks : List Int) (pk : Int) (hs : ks.Sorted (· ≤ ·)) :
    ∀ x ∈ ks.dropWhile (fun k => decide (k ≤ pk)), pk < x := by
  induction ks with
  | nil => simp
  | cons k t ih =>
    obtain ⟨hk, ht⟩ := List.sorted_cons.mp hs
    intro x hx
    by_cases hkp : k ≤ pk
    · rw [List.dropWhile_cons, show (decide (k ≤ pk)) = true by simp [hkp]] at hx
      exact ih ht x (by simpa using hx)
    · rw [List.dropWhile_cons, show (decide (k ≤ pk)) = false by simp [hkp]] at hx
      rcases List.mem_cons.mp hx with rfl | hxt
      · exact not_le.mp hkp
      · exact lt_of_lt_of_le (not_le.mp hkp) (hk x hxt)

theorem find_zip_first (pk : Int) :
    ∀ (ks : List Int) (vs : List PyRecord), ks.Sorted (· ≤ ·) → pk ∈ ks →
      ks.length = vs.length →
      ∃ v, vs.get? (ks.takeWhile (fun k => decide (k < pk))).length = some v ∧
        (ks.zip vs).find? (fun kv => kv.1 == pk) = some (pk, v) := by
  intro ks
  induction ks with
  | nil => intro vs _ hmem; simp at hmem
  | cons k t ih =>
    intro vs hs hmem hlen
    cases vs with
    | nil => simp at hlen
    | cons v0 vt =>
      obtain ⟨hk, ht⟩ := List.sorted_cons.mp hs
      by_cases hkp : k < pk
      · have hne : k ≠ pk := ne_of_lt hkp
        have hmem2 : pk ∈ t := by
          rcases List.mem_cons.mp hmem with rfl | hm
          · exact absurd rfl hne.symm
          · exact hm
        obtain ⟨v, hv1, hv2⟩ := ih vt ht hmem2 (by simpa using hlen)
        refine ⟨v, ?_, ?_⟩
        · rw [List.takeWhile_cons, show (decide (k < pk)) = true by simp [hkp]]
          simpa using hv1
        · rw [List.zip_cons_cons,
            find?_cons_false (fun kv => kv.1 == pk) (k, v0) _ (by simp [hne])]
          exact hv2
      · have hke : k = pk := by
          rcases List.mem_cons.mp hmem with rfl | hm
          · rfl
          · exact le_antisymm (hk pk hm) (not_lt.mp hkp)
        subst hke
        refine ⟨v0, ?_, ?_⟩
        · rw [List.takeWhile_cons, show (decide (k < k)) = false by simp]
          rfl
        · rw [List.zip_cons_cons,
            find?_cons_true (fun kv => kv.1 == k) (k, v0) _ (by simp)]

/-! ### C1: the 32nd insertion into a fresh table

A fresh table created by `create_table` has its root leaf at page 1 and
`next_page = 2`; 31 inserts fill the leaf (`2 * BTREE_ORDER - 1 = 31`).
The 32nd insert takes the root-split path of `_btree_insert`. -/

def keys31 : List Int := (List.range 31).map (fun j => (j : Int))

def vals31 : List PyRecord := (List.range 31).map (fun j => [("id", PyVal.num j)])

def root31 : BTreeNode := ⟨true, keys31, vals31, []⟩

/-- The table file after a fresh `create_table` and 31 inserts with keys
`0..30`: the metadata page and a full leaf root at page 1. -/
def fullLeafTable : List TablePage := [.metaPage 1 2, .nodePage root31]

/-- The new parent produced by `_split_child` for the full root: middle key
15, children `[old root page, new sibling page]`. -/
def c1parent : BTreeNode := ⟨false, [15], [], [1, 3]⟩

/-- The file after `_split_child` writes the new parent: `_find_page_of_node`
falls back to `start_page = 1`, so the parent OVERWRITES the old root. -/
def c1file : List TablePage := [.metaPage 1 2, .nodePage c1parent]

def c1child : BTreeNode := ⟨true, keys31.take 15, vals31.take 15, []⟩

def c1newNode : BTreeNode := ⟨true, keys31.drop 16, vals31.drop 16, []⟩

/-- After the parent clobbers page 1, the BFS looking for the left half
(first key 0) cycles: page 1 holds the parent (first key 15, children
`[1, 3]`), so the queue `[1, 3]` becomes `[3, 1, 3]`, page 3 is still
empty and is skipped, and the queue is `[1, 3]` again — for every fuel
the search is still running, i.e. the Python `while queue:` loop never
terminates. -/
theorem c1_findPage_cycle :
    ∀ n, findPageAux c1file 0 false true 1 n [1, 3] = none := by
  have pair : ∀ n, findPageAux c1file 0 false true 1 n [1, 3] = none ∧
      findPageAux c1file 0 false true 1 (n + 1) [1, 3] = none := by
    intro n
    induction n with
    | zero => exact ⟨rfl, rfl⟩
    | succ k ih =>
      refine ⟨ih.2, ?_⟩
      have hstep : findPageAux c1file 0 false true 1 (k + 2) [1, 3] =
          findPageAux c1file 0 false true 1 k [1, 3] := rfl
      rw [hstep]
      exact ih.1
  exact fun n => (pair n).1

theorem c1_splitChild_eq (m : Nat) :
    splitChild fullLeafTable ⟨1, 3⟩ ⟨false, [], [], [1]⟩ 0 root31 (m + 2) =
      (match findPageAux c1file 0 false true 1 (m + 1) [1, 3] with
       | none => none
       | some cp => some (writePageT (writePageT c1file cp (.nodePage c1child)) 3
           (.nodePage c1newNode), (⟨1, 4⟩ : InsCtx), c1parent, c1child)) := rfl

theorem c1_splitChild_none (fuel : Nat) :
    splitChild fullLeafTable ⟨1, 3⟩ ⟨false, [], [], [1]⟩ 0 root31 fuel = none := by
  match fuel with
  | 0 => rfl
  | 1 => rfl
  | (m + 2) =>
    rw [c1_splitChild_eq m, c1_findPage_cycle (m + 1)]

theorem c1_btreeInsert_eq (record : PyRecord) (fuel : Nat) :
    btreeInsert fullLeafTable 31 record fuel =
      (match splitChild fullLeafTable ⟨1, 3⟩ ⟨false, [], [], [1]⟩ 0 root31 fuel with
       | none => none
       | some (f1, meta2, newRoot1, _) =>
         match insertNonFull (writePageT (writePageT f1 2 (.nodePage newRoot1)) 0
             (.metaPage 2 meta2.nextPage)) ⟨2, meta2.nextPage⟩ newRoot1 31 record fuel with
         | none => none
         | some (f4, _) => some f4) := rfl

/-- C1: the claim says inserting a record into a table whose root leaf is
full promotes the middle key into a fresh root and leaves a three-node tree
holding all 32 records.  In fact the 32nd insert never returns: on the
table produced by `create_table` plus 31 inserts (keys 0..30), `insert_record`
of key 31 runs `_split_child`, whose `_find_page_of_node` BFS falls back to
`start_page` and overwrites the old root with the new parent, after which
the BFS for the split child cycles forever through the clobbered page — the
embedded insertion returns `none` at EVERY fuel, i.e. the Python loop
diverges (and no state with the promoted root is ever reached). -/
theorem c1_insert_split_diverges (record : PyRecord) (fuel : Nat) :
    btreeInsert fullLeafTable 31 record fuel = none := by
  rw [c1_btreeInsert_eq record fuel, c1_splitChild_none fuel]

/-! ### C9: duplicate primary keys

`insert_record` never checks whether the key is already present, so the
claim is about what the tree then holds. On a multi-node tree the
first-key-based `_find_page_of_node` can write the mutated leaf over the
ROOT page (when the leaf's new first key equals the root's first key),
losing records; the claimed behaviour does hold on the single-leaf trees
that `create_table` plus up to 30 inserts produces. -/

def c9recA : PyRecord := [("id", PyVal.num 3)]

def c9recB : PyRecord := [("id", PyVal.num 5)]

def c9recC : PyRecord := [("id", PyVal.num 55)]

def c9recD : PyRecord := [("id", PyVal.num 7)]

/-- A two-leaf tree: root `[5]` at page 1 with children pages 2 (`[3, 5]`)
and 3 (`[7]`); key 5 keys the row `c9recB`.  Such a state arises from a
split of a full leaf holding key 5 at positions 14 and 15 (the duplicates
C9 itself is about). -/
def c9T0 : List TablePage :=
  [.metaPage 1 4,
   .nodePage ⟨false, [5], [], [2, 3]⟩,
   .nodePage ⟨true, [3, 5], [c9recA, c9recB], []⟩,
   .nodePage ⟨true, [7], [c9recD], []⟩]

/-- The file after inserting a second record with key 5 into `c9T0`: the
mutated right leaf `[5, 7]` has first key 5 = the root's first key, so
`_find_page_of_node` returns the ROOT page and the leaf overwrites the
root. -/
def c9T1 : List TablePage :=
  [.metaPage 1 4,
   .nodePage ⟨true, [5, 7], [c9recC, c9recD], []⟩,
   .nodePage ⟨true, [3, 5], [c9recA, c9recB], []⟩,
   .nodePage ⟨true, [7], [c9recD], []⟩]

/-- C9 counterexample: on the two-leaf tree `c9T0` where key 5 already keys
`c9recB`, inserting a second record `c9recC` with key 5 succeeds but
overwrites the root with the mutated leaf: `get_all_records` then yields
`[c9recC, c9recD]` — the first-inserted record `c9recB` (and `c9recA`) are
gone, NOT both entries — and `search_pk 5` returns the LATER record
`c9recC`, not the first-inserted one.  This refutes the claim's
"for every table". -/
theorem c9_root_clobber_counterexample :
    btreeSearch c9T0 5 10 = some (some c9recB) ∧
    btreeInsert c9T0 5 c9recC 10 = some c9T1 ∧
    btreeSearch c9T1 5 10 = some (some c9recC) ∧
    btreeGetAll c9T1 10 = some [c9recC, c9recD] ∧
    c9recC ≠ c9recB ∧ ¬ (c9recB ∈ [c9recC, c9recD]) := by
  refine ⟨by decide, by decide, by decide, by decide, by decide, by decide⟩

/-- Python's `bisect`-free right-to-left scan in `_insert_non_full`: the
inserted key's position. -/
def insPos (ks : List Int) (pk : Int) : Nat :=
  ks.length - (ks.reverse.takeWhile (fun k => decide (pk < k))).length

theorem insertNonFull_leaf_eq2 (f : List TablePage) (meta : InsCtx)
    (ks : List Int) (vs : List PyRecord) (pk : Int) (rec2 : PyRecord) :
    insertNonFull f meta ⟨true, ks, vs, []⟩ pk rec2 2 =
      (match pyInsert ks (insPos ks pk) pk with
       | [] => none
       | k0 :: _ =>
         match findPageAux f k0 false false meta.rootPage 1 [meta.rootPage] with
         | none => none
         | some p => some (writePageT f p (.nodePage ⟨true, pyInsert ks (insPos ks pk) pk,
             pyInsert vs (insPos ks pk) rec2, []⟩), meta)) := rfl

theorem btreeInsert_leafTable_notFull (ks : List Int) (vs : List PyRecord)
    (pk : Int) (rec2 : PyRecord) (fuel : Nat) (hfull : ¬ ks.length = 31) :
    btreeInsert (leafTable ks vs) pk rec2 fuel =
      (match insertNonFull (leafTable ks vs) ⟨1, 2⟩ ⟨true, ks, vs, []⟩ pk rec2 fuel with
       | none => none
       | some (f4, _) => some f4) := by
  have h1 : btreeInsert (leafTable ks vs) pk rec2 fuel =
      (if ks.length = 31 then
         (match splitChild (leafTable ks vs) ⟨1, 3⟩ ⟨false, [], [], [1]⟩ 0
             ⟨true, ks, vs, []⟩ fuel with
          | none => none
          | some (f1, meta2, newRoot1, _) =>
            match insertNonFull (writePageT (writePageT f1 2 (.nodePage newRoot1)) 0
                (.metaPage 2 meta2.nextPage)) ⟨2, meta2.nextPage⟩ newRoot1 pk rec2 fuel with
            | none => none
            | some (f4, _) => some f4)
       else
         (match insertNonFull (leafTable ks vs) ⟨1, 2⟩ ⟨true, ks, vs, []⟩ pk rec2 fuel with
          | none => none
          | some (f4, _) => some f4)) := rfl
  rw [h1, if_neg hfull]

theorem findPage_leafTable_hit1 (ks : List Int) (vs : List PyRecord) (kh : Int) (kt : List Int)
    (hks : ks = kh :: kt) :
    findPageAux (leafTable ks vs) kh false false 1 1 [1] = some 1 := by
  subst hks
  have h1 : findPageAux (leafTable (kh :: kt) vs) kh false false 1 1 [1] =
      (if (kh == kh : Bool) then some 1 else none) := rfl
  rw [h1]
  simp

theorem btreeSearch_leafTable_eq2 (ks1 : List Int) (vs1 : List PyRecord) (pk : Int) :
    btreeSearch (leafTable ks1 vs1) pk 2 =
      (match ks1.get? (ks1.takeWhile (fun k => decide (k < pk))).length with
       | some ki =>
         if ki = pk then
           (match vs1.get? (ks1.takeWhile (fun k => decide (k < pk))).length with
            | some v => some (some v)
            | none => none)
         else some none
       | none => some none) := rfl

theorem btreeGetAll_leafTable (ks1 : List Int) (vs1 : List PyRecord) (fuel : Nat) :
    btreeGetAll (leafTable ks1 vs1) (fuel + 1) = some vs1 := rfl

/-- The keys at most `pk`, i.e. the part of a sorted key list left of the
insertion position. -/
def twLe (ks : List Int) (pk : Int) : List Int := ks.takeWhile (fun k => decide (k ≤ pk))

/-- The keys strictly above `pk`, right of the insertion position. -/
def dwLe (ks : List Int) (pk : Int) : List Int := ks.dropWhile (fun k => decide (k ≤ pk))

/-- C9 (amended to single-leaf trees): for every table whose root is a
sorted leaf of fewer than 31 keys — the states `create_table` plus up to 30
inserts produces — inserting a record under a primary key `pk` that already
keys an existing row succeeds without error, `get_all_records` afterwards
yields all old records plus the new one (both entries for `pk` included),
and `search_pk pk` returns the FIRST-inserted record for `pk` (the first
match in the original table), not the newly inserted one. -/
theorem c9_duplicate_pk_single_leaf (ks : List Int) (vs : List PyRecord)
    (pk : Int) (rec2 : PyRecord)
    (hs : ks.Sorted (· ≤ ·)) (hmem : pk ∈ ks)
    (hlen : ks.length = vs.length) (hfull : ¬ ks.length = 31) :
    ∃ ks1 vs1 v,
      btreeInsert (leafTable ks vs) pk rec2 2 = some (leafTable ks1 vs1) ∧
      ks1.Perm (pk :: ks) ∧ vs1.Perm (rec2 :: vs) ∧
      btreeGetAll (leafTable ks1 vs1) 2 = some vs1 ∧
      (ks.zip vs).find? (fun kv => kv.1 == pk) = some (pk, v) ∧
      btreeSearch (leafTable ks1 vs1) pk 2 = some (some v) := by
  obtain ⟨kh, kt, hks⟩ : ∃ kh kt, ks = kh :: kt := by
    cases ks with
    | nil => simp at hmem
    | cons a t => exact ⟨a, t, rfl⟩
  have hkh : kh ≤ pk := by
    subst hks
    rcases List.mem_cons.mp hmem with h | h
    · exact le_of_eq h.symm
    · exact (List.sorted_cons.mp hs).1 pk h
  have hpos : insPos ks pk = (twLe ks pk).length := insertPos_eq_takeWhile_le ks pk hs
  have hinsK : pyInsert ks (insPos ks pk) pk = twLe ks pk ++ pk :: dwLe ks pk := by
    rw [hpos]
    simp only [twLe, dwLe, pyInsert]
    rw [take_takeWhile_length, drop_takeWhile_length]
  have hinsV : pyInsert vs (insPos ks pk) rec2 =
      vs.take (twLe ks pk).length ++ rec2 :: vs.drop (twLe ks pk).length := by
    rw [hpos]
    rfl
  have hDWgt : ∀ x ∈ dwLe ks pk, pk < x := dropWhile_le_gt ks pk hs
  have hsplitKs : twLe ks pk ++ dwLe ks pk = ks :=
    List.takeWhile_append_dropWhile (fun k => decide (k ≤ pk)) ks
  have hpkTW : pk ∈ twLe ks pk := by
    have hm2 := hmem
    rw [← hsplitKs] at hm2
    rcases List.mem_append.mp hm2 with h | h
    · exact h
    · exact absurd (hDWgt pk h) (lt_irrefl pk)
  have hTWcons : twLe ks pk = kh :: kt.takeWhile (fun k => decide (k ≤ pk)) := by
    rw [hks]
    simp [twLe, List.takeWhile_cons, hkh]
  have hQ_TW : (twLe ks pk).takeWhile (fun k => decide (k < pk)) =
      ks.takeWhile (fun k => decide (k < pk)) :=
    takeWhile_takeWhile_of_imp _ _ ks (fun x hx => by
      simp only [decide_eq_true_eq] at hx ⊢
      exact le_of_lt hx)
  have hAlen : (ks.takeWhile (fun k => decide (k < pk))).length < (twLe ks pk).length := by
    have hle : (ks.takeWhile (fun k => decide (k < pk))).length ≤ (twLe ks pk).length := by
      rw [← hQ_TW]
      exact (List.takeWhile_sublist _).length_le
    rcases lt_or_eq_of_le hle with h | h
    · exact h
    · exfalso
      have hpre : (twLe ks pk).takeWhile (fun k => decide (k < pk)) <+: twLe ks pk :=
        List.takeWhile_prefix _
      have heq : (twLe ks pk).takeWhile (fun k => decide (k < pk)) = twLe ks pk :=
        hpre.eq_of_length (by rw [hQ_TW]; exact h)
      have hpkA : pk ∈ (twLe ks pk).takeWhile (fun k => decide (k < pk)) := by
        rw [heq]
        exact hpkTW
      have hbad := List.mem_takeWhile_imp hpkA
      simp at hbad
  have hget_key : (twLe ks pk ++ pk :: dwLe ks pk).get?
      (ks.takeWhile (fun k => decide (k < pk))).length = some pk := by
    rw [List.get?_append hAlen]
    obtain ⟨x, hx1, hx2⟩ := get?_at_takeWhile_length (fun k => decide (k < pk)) (twLe ks pk)
      (by rw [hQ_TW]; exact hAlen)
    rw [hQ_TW] at hx1
    have hxmem : x ∈ twLe ks pk := List.get?_mem hx1
    have hxle : x ≤ pk := by
      simp only [twLe] at hxmem
      have := List.mem_takeWhile_imp hxmem
      simpa using this
    have hxge : ¬ (x < pk) := by simpa using hx2
    have hxeq : x = pk := le_antisymm hxle (not_lt.mp hxge)
    rw [hx1, hxeq]
  obtain ⟨v, hv1, hv2⟩ := find_zip_first pk ks vs hs hmem hlen
  have hget_val : (vs.take (twLe ks pk).length ++ rec2 :: vs.drop (twLe ks pk).length).get?
      (ks.takeWhile (fun k => decide (k < pk))).length = some v := by
    have hTWlen_le : (twLe ks pk).length ≤ vs.length := by
      rw [← hlen]
      exact (List.takeWhile_sublist _).length_le
    have hlen_take : (vs.take (twLe ks pk).length).length = (twLe ks pk).length := by
      rw [List.length_take]
      omega
    rw [List.get?_append (by rw [hlen_take]; exact hAlen)]
    rw [List.get?_take hAlen]
    exact hv1
  have hins : btreeInsert (leafTable ks vs) pk rec2 2 =
      some (leafTable (twLe ks pk ++ pk :: dwLe ks pk)
        (vs.take (twLe ks pk).length ++ rec2 :: vs.drop (twLe ks pk).length)) := by
    rw [btreeInsert_leafTable_notFull ks vs pk rec2 2 hfull]
    rw [insertNonFull_leaf_eq2 (leafTable ks vs) ⟨1, 2⟩ ks vs pk rec2]
    rw [hinsK, hinsV, hTWcons]
    simp only [List.cons_append]
    rw [findPage_leafTable_hit1 ks vs kh kt hks]
    rfl
  have hperm1 : (twLe ks pk ++ pk :: dwLe ks pk).Perm (pk :: ks) := by
    have h := @List.perm_middle _ pk (twLe ks pk) (dwLe ks pk)
    rw [hsplitKs] at h
    exact h
  have hperm2 : (vs.take (twLe ks pk).length ++
      rec2 :: vs.drop (twLe ks pk).length).Perm (rec2 :: vs) := by
    have h := @List.perm_middle _ rec2 (vs.take (twLe ks pk).length)
      (vs.drop (twLe ks pk).length)
    rw [List.take_append_drop] at h
    exact h
  have hKS1take : (twLe ks pk ++ pk :: dwLe ks pk).takeWhile (fun k => decide (k < pk)) =
      ks.takeWhile (fun k => decide (k < pk)) := by
    rw [takeWhile_append_cons_false _ (twLe ks pk) (dwLe ks pk) pk (by simp)]
    exact hQ_TW
  have hsearch : btreeSearch (leafTable (twLe ks pk ++ pk :: dwLe ks pk)
      (vs.take (twLe ks pk).length ++ rec2 :: vs.drop (twLe ks pk).length)) pk 2 =
      some (some v) := by
    rw [btreeSearch_leafTable_eq2, hKS1take, hget_key]
    dsimp only
    rw [if_pos rfl, hget_val]
  refine ⟨twLe ks pk ++ pk :: dwLe ks pk,
    vs.take (twLe ks pk).length ++ rec2 :: vs.drop (twLe ks pk).length, v,
    hins, hperm1, hperm2, btreeGetAll_leafTable _ _ 1, hv2, hsearch⟩

/-- Witness for C9's amended theorem at the single-leaf table with keys
`[3, 5]` holding `c9recA, c9recB`: inserting a second record for key 5
keeps both entries and `search_pk 5` still answers `c9recB`. -/
theorem c9_duplicate_pk_single_leaf_witness :
    ([3, 5] : List Int).Sorted (· ≤ ·) ∧ (5 : Int) ∈ ([3, 5] : List Int) ∧
    (∃ ks1 vs1 v,
      btreeInsert (leafTable [3, 5] [c9recA, c9recB]) 5 c9recC 2 = some (leafTable ks1 vs1) ∧
      ks1.Perm (5 :: [3, 5]) ∧ vs1.Perm (c9recC :: [c9recA, c9recB]) ∧
      btreeGetAll (leafTable ks1 vs1) 2 = some vs1 ∧
      (([3, 5] : List Int).zip [c9recA, c9recB]).find? (fun kv => kv.1 == 5) = some (5, v) ∧
      btreeSearch (leafTable ks1 vs1) 5 2 = some (some v)) :=
  ⟨by decide, by decide,
   c9_duplicate_pk_single_leaf [3, 5] [c9recA, c9recB] 5 c9recC
     (by decide) (by decide) (by decide) (by decide)⟩
